import Mathlib

set_option maxRecDepth 40000

/-!
Shallow embedding of the Swift comment remover
(src/remove_swift_comments.py, class SwiftCommentRemover) and proofs of the
specification claims about it.

The Python object state is modelled by the structure `SwiftCommentRemover`
below.  The output buffer `self.result` is a Python list of string chunks
(most appends are single characters but delimiters and escape pairs are
appended as multi-character chunks); it is modelled as a list of `List Char`
chunks kept in reverse order (head of the list is the most recently appended
chunk).  Character indices are natural numbers; the Python `int` counters
that can become negative (`interpolation_depth`, `brace_depth`,
`bracket_depth`, `nesting_level`) are modelled as `Int`.

The two places where the Python code can raise an `IndexError`
(`state_stack.pop()` on an empty stack, and the negative-index wrap-around
in the trailing-space trim of `_handle_extended_regex` when the whole output
buffer consists of single-space chunks) are modelled by setting an `error`
flag instead of raising.
-/

namespace CommentRemover

/-- Python `str.isspace` on a single character (the Unicode whitespace set
used by CPython for one-character strings). -/
def pyIsSpace (c : Char) : Bool :=
  c == ' ' || c == '\t' || c == '\n' || c == '\r' || c == '\x0b' || c == '\x0c' ||
  (0x1c ≤ c.toNat && c.toNat ≤ 0x1f) || c.toNat == 0x85 || c.toNat == 0xa0 ||
  c.toNat == 0x1680 || (0x2000 ≤ c.toNat && c.toNat ≤ 0x200a) ||
  c.toNat == 0x2028 || c.toNat == 0x2029 || c.toNat == 0x202f ||
  c.toNat == 0x205f || c.toNat == 0x3000

/-- Python `str.isalnum` on a single character, restricted to the ASCII
range.  Python's `str.isalnum` accepts all Unicode alphanumerics, a set not
reproduced here, so this predicate diverges from it on non-ASCII
alphanumeric characters; every statement about the keyword-boundary test of
the regex-context oracle is therefore proved with the alphanumeric
predicate as a parameter (`is_regex_context_gen` below), so that it holds
in particular for Python's true `str.isalnum`, and the lexer's own oracle
is the instance at this ASCII predicate. -/
def pyIsAlnum (c : Char) : Bool :=
  c.isAlpha || c.isDigit

/-- Length of the run of copies of `c` at the front of a character list.
Models `SwiftCommentRemover._count_char` applied to `source[pos:]`. -/
def countRun (c : Char) : List Char → Nat
  | [] => 0
  | x :: xs => if x == c then countRun c xs + 1 else 0

/-- Distance from the front of the list to the first newline (length of the
list when there is none).  Models the skip loop of the embedded-comment
branch of `_handle_extended_regex`. -/
def distToNl : List Char → Nat
  | [] => 0
  | x :: xs => if x == '\n' then 0 else distToNl xs + 1

/-- Index of the first newline at or after position `i` (the length of the
source when there is none). -/
def findNl (src : List Char) (i : Nat) : Nat := i + distToNl (src.drop i)

/-- Index of the last non-whitespace character among the first `n`
characters of `src`, scanning backwards; `none` when the scanned prefix is
all whitespace.  Models the backward scan of `_is_regex_context`. -/
def prevNonWs (src : List Char) : Nat → Option Nat
  | 0 => none
  | n + 1 => if pyIsSpace (src.getD n ' ') then prevNonWs src n else some n

/-- The set of characters after which a `/` is taken to start a regex
literal (`regex_preceding` in `_is_regex_context`). -/
def regexPreceding (c : Char) : Bool :=
  c == '=' || c == '(' || c == ',' || c == '[' || c == ':' || c == '{' ||
  c == '!' || c == '&' || c == '|' || c == '^' || c == '+' || c == '-' ||
  c == '*' || c == '%' || c == '<' || c == '>' || c == '~' || c == ';'

/-- The characters of the keyword `return`. -/
def kwReturn : List Char := ['r', 'e', 't', 'u', 'r', 'n']

/-- The characters of the keyword `where`. -/
def kwWhere : List Char := ['w', 'h', 'e', 'r', 'e']

/-- The keyword test of `_is_regex_context`: the characters of `src` ending
at index `pos` spell `kw`, and the keyword is preceded by nothing or by a
non-alphanumeric character. -/
def keywordEndsAt (src : List Char) (kw : List Char) (pos : Nat) : Bool :=
  if kw.length ≤ pos + 1 then
    let start := pos + 1 - kw.length
    ((src.drop start).take kw.length == kw) &&
      (start == 0 || !pyIsAlnum (src.getD (start - 1) ' '))
  else false

/-- `SwiftCommentRemover._is_regex_context`: consulted at a `/` at index
`i`; scans backwards over whitespace and classifies the previous
significant character. -/
def is_regex_context (src : List Char) (i : Nat) : Bool :=
  match prevNonWs src i with
  | none => true
  | some pos =>
    regexPreceding (src.getD pos ' ') ||
    keywordEndsAt src kwReturn pos ||
    keywordEndsAt src kwWhere pos

/-- `SwiftCommentRemover._is_line_only_whitespace_before_comment`: the
characters of `src` strictly before index `n` and after the previous
newline are all spaces or tabs. -/
def lineOnlyWsBefore (src : List Char) : Nat → Bool
  | 0 => true
  | n + 1 =>
    let ch := src.getD n ' '
    if ch == '\n' then true
    else if ch == ' ' || ch == '\t' then lineOnlyWsBefore src n
    else false

/-- A buffer chunk that `_remove_trailing_spaces` pops: a single space or a
single tab. -/
def isSpaceChunk (ch : List Char) : Bool := ch == [' '] || ch == ['\t']

/-- `SwiftCommentRemover._remove_trailing_spaces` on the (reversed) chunk
buffer: pop trailing single-space and single-tab chunks. -/
def remove_trailing_spaces (res : List (List Char)) : List (List Char) :=
  res.dropWhile isSpaceChunk

/-- The `ParseState` enumeration of the Python module. -/
inductive ParseState where
  | NORMAL
  | SINGLE_LINE_COMMENT
  | MULTI_LINE_COMMENT
  | STRING
  | MULTILINE_STRING
  | STRING_ESCAPE
  | MULTILINE_STRING_ESCAPE
  | REGEX_LITERAL
  | EXTENDED_REGEX
  | IN_INTERPOLATION
deriving DecidableEq

/-- The `StateContext` class: a saved string context for the state stack. -/
structure StateContext where
  state : ParseState
  hash_count : Nat
  quote_count : Nat
deriving DecidableEq

/-- The mutable state of a `SwiftCommentRemover` instance (the `length`
field of the Python object is always `len(self.source)` and is not stored
separately).  `error` records the two spots where the Python code would
raise `IndexError`. -/
structure SwiftCommentRemover where
  source : List Char
  result : List (List Char)
  i : Nat
  current_state : ParseState
  state_stack : List StateContext
  nesting_level : Int
  current_hash_count : Nat
  current_quote_count : Nat
  interpolation_depth : Int
  brace_depth : Int
  bracket_depth : Int
  line_had_content : Bool
  error : Bool

/-- `SwiftCommentRemover._peek`. -/
def peekc (m : SwiftCommentRemover) (off : Nat) : Option Char :=
  m.source.get? (m.i + off)

/-- `SwiftCommentRemover._count_char`. -/
def count_char (m : SwiftCommentRemover) (c : Char) (off : Nat) : Nat :=
  countRun c (m.source.drop (m.i + off))

/-- The current character `self.source[self.i]` (the main loop guarantees
`self.i < self.length`; out of range the default is a space, which triggers
no branch). -/
def currentChar (m : SwiftCommentRemover) : Char :=
  m.source.getD m.i ' '

/-- `SwiftCommentRemover._revert_to_previous_state`. -/
def revert_to_previous_state (m : SwiftCommentRemover) : SwiftCommentRemover :=
  { m with current_hash_count := 0, current_quote_count := 0,
           current_state :=
             if 0 < m.interpolation_depth then ParseState.IN_INTERPOLATION
             else ParseState.NORMAL }

/-- `SwiftCommentRemover._handle_comment_end`. -/
def handle_comment_end (m : SwiftCommentRemover) : SwiftCommentRemover :=
  { m with current_state :=
             if 0 < m.interpolation_depth then ParseState.IN_INTERPOLATION
             else ParseState.NORMAL }

/-- `SwiftCommentRemover._enter_string_state`. -/
def enter_string_state (m : SwiftCommentRemover) (st : ParseState)
    (hc qc : Nat) : SwiftCommentRemover :=
  let cq := if st = ParseState.MULTILINE_STRING then qc else 1
  let delims := List.replicate hc '#' ++ List.replicate cq '"'
  { m with current_state := st, current_hash_count := hc,
           current_quote_count := cq,
           result := delims :: m.result,
           i := m.i + (delims.length - 1) }

/-- The `)`-closing pop of `_handle_normal_or_interpolation`; an empty
stack means the Python `state_stack.pop()` would raise `IndexError`. -/
def popInterp (m : SwiftCommentRemover) : SwiftCommentRemover :=
  match m.state_stack with
  | [] => { m with error := true }
  | ctx :: rest =>
    { m with current_state := ctx.state,
             current_hash_count := ctx.hash_count,
             current_quote_count := ctx.quote_count,
             state_stack := rest }

/-- The bracket bookkeeping performed after appending a character in the
`IN_INTERPOLATION` state. -/
def interpUpdate (m : SwiftCommentRemover) (char : Char) : SwiftCommentRemover :=
  if char = '(' then { m with interpolation_depth := m.interpolation_depth + 1 }
  else if char = '{' then { m with brace_depth := m.brace_depth + 1 }
  else if char = '[' then { m with bracket_depth := m.bracket_depth + 1 }
  else if char = ')' then
    if m.interpolation_depth - 1 = 0 ∧ m.brace_depth = 0 ∧ m.bracket_depth = 0 then
      popInterp { m with interpolation_depth := m.interpolation_depth - 1 }
    else { m with interpolation_depth := m.interpolation_depth - 1 }
  else if char = '}' then { m with brace_depth := m.brace_depth - 1 }
  else if char = ']' then { m with bracket_depth := m.bracket_depth - 1 }
  else m

/-- `SwiftCommentRemover._handle_normal_or_interpolation`. -/
def handle_normal_or_interpolation (m : SwiftCommentRemover) : SwiftCommentRemover :=
  let char := currentChar m
  let nxt := peekc m 1
  if char = '/' ∧ nxt = some '/' then
    { m with result := remove_trailing_spaces m.result,
             line_had_content := !(lineOnlyWsBefore m.source m.i),
             current_state := ParseState.SINGLE_LINE_COMMENT,
             i := m.i + 1 }
  else if char = '/' ∧ nxt = some '*' then
    { m with result := remove_trailing_spaces m.result,
             line_had_content := !(lineOnlyWsBefore m.source m.i),
             current_state := ParseState.MULTI_LINE_COMMENT,
             nesting_level := 1,
             i := m.i + 1 }
  else if char = '#' ∧ peekc m (count_char m '#' 0) = some '"' then
    let hc := count_char m '#' 0
    let qc := count_char m '"' hc
    enter_string_state m
      (if 3 ≤ qc then ParseState.MULTILINE_STRING else ParseState.STRING) hc qc
  else if char = '#' ∧ peekc m (count_char m '#' 0) = some '/' ∧
      is_regex_context m.source m.i = true then
    let hc := count_char m '#' 0
    { m with current_state := ParseState.EXTENDED_REGEX,
             current_hash_count := hc,
             result := (List.replicate hc '#' ++ ['/']) :: m.result,
             i := m.i + hc }
  else if char = '"' then
    let qc := count_char m '"' 0
    enter_string_state m
      (if 3 ≤ qc then ParseState.MULTILINE_STRING else ParseState.STRING) 0 qc
  else if char = '/' ∧ is_regex_context m.source m.i = true then
    { m with current_state := ParseState.REGEX_LITERAL,
             result := [char] :: m.result }
  else
    if m.current_state = ParseState.IN_INTERPOLATION then
      interpUpdate { m with result := [char] :: m.result } char
    else { m with result := [char] :: m.result }

/-- `SwiftCommentRemover._handle_single_comment`. -/
def handle_single_comment (m : SwiftCommentRemover) : SwiftCommentRemover :=
  if currentChar m = '\n' then
    if m.line_had_content then
      { handle_comment_end m with result := ['\n'] :: m.result }
    else handle_comment_end m
  else m

/-- `SwiftCommentRemover._handle_multi_comment`.  After `*/` the cursor has
moved one position, so the peek after the closing delimiter reads the
character two positions after the `*`. -/
def handle_multi_comment (m : SwiftCommentRemover) : SwiftCommentRemover :=
  let char := currentChar m
  let nxt := peekc m 1
  if char = '/' ∧ nxt = some '*' then
    { m with nesting_level := m.nesting_level + 1, i := m.i + 1 }
  else if char = '*' ∧ nxt = some '/' then
    if m.nesting_level - 1 = 0 then
      if peekc m 2 = some '\n' ∧ m.line_had_content = false then
        { handle_comment_end { m with nesting_level := m.nesting_level - 1 } with
            i := m.i + 2 }
      else
        { handle_comment_end { m with nesting_level := m.nesting_level - 1 } with
            i := m.i + 1 }
    else { m with nesting_level := m.nesting_level - 1, i := m.i + 1 }
  else m

/-- The closing-quote test of `_handle_any_string`. -/
def is_closing_quote (m : SwiftCommentRemover) : Bool :=
  (currentChar m == '"') &&
  (let eq := count_char m '"' 0
   decide (m.current_quote_count ≤ eq) &&
   (m.current_hash_count == 0 ||
    decide (m.current_hash_count ≤ count_char m '#' eq)))

/-- `SwiftCommentRemover._handle_any_string`. -/
def handle_any_string (m : SwiftCommentRemover) (esc : ParseState) : SwiftCommentRemover :=
  let char := currentChar m
  let nxt := peekc m 1
  if char = '\\' then
    if nxt = some '(' then
      { m with result := ['\\', '('] :: m.result,
               i := m.i + 1,
               state_stack :=
                 { state := m.current_state,
                   hash_count := m.current_hash_count,
                   quote_count := m.current_quote_count } :: m.state_stack,
               current_state := ParseState.IN_INTERPOLATION,
               interpolation_depth := 1, brace_depth := 0, bracket_depth := 0 }
    else
      { m with current_state := esc, result := [char] :: m.result }
  else if is_closing_quote m then
    let delims := List.replicate m.current_quote_count '"' ++
                  List.replicate m.current_hash_count '#'
    revert_to_previous_state
      { m with result := delims :: m.result, i := m.i + (delims.length - 1) }
  else
    { m with result := [char] :: m.result }

/-- `SwiftCommentRemover._handle_string_escape`. -/
def handle_string_escape (m : SwiftCommentRemover) : SwiftCommentRemover :=
  { m with result := [currentChar m] :: m.result,
           current_state := ParseState.STRING }

/-- `SwiftCommentRemover._handle_multiline_string_escape`. -/
def handle_multiline_string_escape (m : SwiftCommentRemover) : SwiftCommentRemover :=
  { m with result := [currentChar m] :: m.result,
           current_state := ParseState.MULTILINE_STRING }

/-- `SwiftCommentRemover._handle_regex`. -/
def handle_regex (m : SwiftCommentRemover) : SwiftCommentRemover :=
  let char := currentChar m
  if char = '\\' ∧ (peekc m 1).isSome then
    { m with result := [char, (peekc m 1).getD ' '] :: m.result, i := m.i + 1 }
  else if char = '/' then
    revert_to_previous_state { m with result := [char] :: m.result }
  else
    { m with result := [char] :: m.result }

/-- `SwiftCommentRemover._handle_extended_regex`.  In the embedded-comment
branch, the Python scan of trailing single-space chunks indexes the buffer
with a value that becomes negative when every chunk is a single space;
Python list indexing then wraps around and eventually raises `IndexError`.
That situation sets `error` here; otherwise the branch pops exactly the
trailing run of single-space chunks. -/
def handle_extended_regex (m : SwiftCommentRemover) : SwiftCommentRemover :=
  let char := currentChar m
  if char = '/' ∧ m.current_hash_count ≤ count_char m '#' 1 then
    let delims := '/' :: List.replicate m.current_hash_count '#'
    revert_to_previous_state
      { m with result := delims :: m.result, i := m.i + m.current_hash_count }
  else if char = '#' then
    if m.result ≠ [] ∧ m.result.all (fun ch => ch == [' ']) then
      { m with error := true }
    else
      { m with result := m.result.dropWhile (fun ch => ch == [' ']),
               i := findNl m.source m.i - 1 }
  else if char = '\\' ∧ (peekc m 1).isSome then
    { m with result := [char, (peekc m 1).getD ' '] :: m.result, i := m.i + 1 }
  else
    { m with result := [char] :: m.result }

/-- `SwiftCommentRemover._process_current_char`: dispatch on the state. -/
def process_current_char (m : SwiftCommentRemover) : SwiftCommentRemover :=
  match m.current_state with
  | ParseState.NORMAL => handle_normal_or_interpolation m
  | ParseState.IN_INTERPOLATION => handle_normal_or_interpolation m
  | ParseState.SINGLE_LINE_COMMENT => handle_single_comment m
  | ParseState.MULTI_LINE_COMMENT => handle_multi_comment m
  | ParseState.STRING => handle_any_string m ParseState.STRING_ESCAPE
  | ParseState.MULTILINE_STRING => handle_any_string m ParseState.MULTILINE_STRING_ESCAPE
  | ParseState.STRING_ESCAPE => handle_string_escape m
  | ParseState.MULTILINE_STRING_ESCAPE => handle_multiline_string_escape m
  | ParseState.REGEX_LITERAL => handle_regex m
  | ParseState.EXTENDED_REGEX => handle_extended_regex m

/-- One iteration of the main loop of `remove_comments`: process the
current character, then advance the cursor. -/
def step (m : SwiftCommentRemover) : SwiftCommentRemover :=
  let m1 := process_current_char m
  { m1 with i := m1.i + 1 }

/-- The main loop of `remove_comments`, with explicit fuel; every step
advances the cursor by at least one, so fuel `source.length` always
suffices (proved below). -/
def run : Nat → SwiftCommentRemover → SwiftCommentRemover
  | 0, m => m
  | fuel + 1, m =>
    if m.i < m.source.length then run fuel (step m) else m

/-- The freshly reset state built at the top of `remove_comments`. -/
def initial (source : List Char) : SwiftCommentRemover :=
  { source := source, result := [], i := 0,
    current_state := ParseState.NORMAL, state_stack := [],
    nesting_level := 0, current_hash_count := 0, current_quote_count := 0,
    interpolation_depth := 0, brace_depth := 0, bracket_depth := 0,
    line_had_content := false, error := false }

/-- The machine state at the end of the main loop. -/
def finalState (source : List Char) : SwiftCommentRemover :=
  run source.length (initial source)

/-- The flattened output text accumulated in the (reversed) chunk buffer. -/
def outStr (m : SwiftCommentRemover) : List Char :=
  m.result.reverse.flatten

/-- `SwiftCommentRemover.remove_comments` on a character list. -/
def remove_comments (source : List Char) : List Char :=
  outStr (finalState source)

/-- `SwiftCommentRemover.remove_comments` on a `String`. -/
def remove_comments_str (s : String) : String :=
  String.mk (remove_comments s.data)

/-- The current step is about to recognize a comment opener: `//` or `/*`
in `NORMAL` or `IN_INTERPOLATION` mode, or the `#` beginning an embedded
line comment inside an extended regex literal (inside that state a `#` is
never part of the closing delimiter, which is matched at the `/`). -/
def opensComment (m : SwiftCommentRemover) : Bool :=
  match m.current_state with
  | ParseState.NORMAL =>
    (currentChar m == '/') && (peekc m 1 == some '/' || peekc m 1 == some '*')
  | ParseState.IN_INTERPOLATION =>
    (currentChar m == '/') && (peekc m 1 == some '/' || peekc m 1 == some '*')
  | ParseState.EXTENDED_REGEX => currentChar m == '#'
  | _ => false

/-- The current step closes a string literal at a quote run strictly longer
than the opening delimiter while the delimiter carries hashes; in that case
`_handle_any_string` emits the delimiter but consumes different characters,
so the literal is not copied verbatim. -/
def overlongRawClose (m : SwiftCommentRemover) : Bool :=
  match m.current_state with
  | ParseState.STRING =>
    is_closing_quote m && !(m.current_hash_count == 0) &&
      decide (m.current_quote_count < count_char m '"' 0)
  | ParseState.MULTILINE_STRING =>
    is_closing_quote m && !(m.current_hash_count == 0) &&
      decide (m.current_quote_count < count_char m '"' 0)
  | _ => false

/-- The run of the lexer on `s` never recognizes a comment opener (no `//`
or `/*` in code position and no `#` comment inside an extended regex):
the formal reading of a source that contains no comment opener. -/
def NoCommentOpener (s : List Char) : Prop :=
  ∀ k, k < s.length → opensComment (run k (initial s)) = false

/-- The run of the lexer on `s` never closes a raw string literal at an
over-long quote run. -/
def NoOverlongRawClose (s : List Char) : Prop :=
  ∀ k, k < s.length → overlongRawClose (run k (initial s)) = false

instance (s : List Char) : Decidable (NoCommentOpener s) := by
  unfold NoCommentOpener
  infer_instance

instance (s : List Char) : Decidable (NoOverlongRawClose s) := by
  unfold NoOverlongRawClose
  infer_instance

/-- The reachable-state invariant of the lexer: no error was raised, the
interpolation bookkeeping can always pop a saved string frame when it needs
one, saved frames are string frames with a positive quote count, string
modes carry a positive quote count, and in the extended-regex mode the
output buffer holds a chunk other than a single space (the opening
delimiter), so the embedded-comment trim cannot wrap around. -/
def Inv (m : SwiftCommentRemover) : Prop :=
  m.error = false ∧
  (m.current_state = ParseState.IN_INTERPOLATION → m.state_stack ≠ []) ∧
  (1 ≤ m.interpolation_depth → m.state_stack ≠ []) ∧
  (m.current_state = ParseState.EXTENDED_REGEX →
    ∃ ch ∈ m.result, (ch == [' ']) = false) ∧
  (∀ ctx ∈ m.state_stack,
    (ctx.state = ParseState.STRING ∨ ctx.state = ParseState.MULTILINE_STRING) ∧
      1 ≤ ctx.quote_count) ∧
  ((m.current_state = ParseState.STRING ∨
    m.current_state = ParseState.MULTILINE_STRING ∨
    m.current_state = ParseState.STRING_ESCAPE ∨
    m.current_state = ParseState.MULTILINE_STRING_ESCAPE) →
    1 ≤ m.current_quote_count)

/-- The previous significant character before index `j` (skipping
whitespace backwards), as consulted by the regex-context oracle. -/
def prevSigChar (src : List Char) (j : Nat) : Option Char :=
  (prevNonWs src j).map (fun p => src.getD p ' ')

/-- Formalization of the oracle-stability hypothesis of the idempotence
claim, following its parenthetical reading: for every `/` of the output of
the first pass there is a `/` of the source with the same preceding
significant character and the same oracle classification, so comment
removal changed the significant byte preceding no `/`. -/
def oracleStable (s : List Char) : Bool :=
  let t := remove_comments s
  (List.range t.length).all (fun j =>
    !(t.getD j ' ' == '/') ||
    (List.range s.length).any (fun k =>
      (s.getD k ' ' == '/') &&
      (prevSigChar s k == prevSigChar t j) &&
      (is_regex_context s k == is_regex_context t j)))

/-- Subsequence test: the characters of `pat` occur in `l` in order. -/
def isSubseq : List Char → List Char → Bool
  | [], _ => true
  | _ :: _, [] => false
  | a :: as, b :: bs => if a == b then isSubseq as bs else isSubseq (a :: as) bs

/-- Contiguous-substring test. -/
def hasSub (pat l : List Char) : Bool :=
  (List.range (l.length + 1)).any (fun j => (l.drop j).take pat.length == pat)

/-- The keyword test of `_is_regex_context` with the alphanumeric
predicate as a parameter: instantiated at Python's Unicode `str.isalnum`
this is the keyword test the program runs, and instantiated at `pyIsAlnum`
it is `keywordEndsAt`. -/
def keywordEndsAt_gen (alnum : Char → Bool) (src : List Char) (kw : List Char)
    (pos : Nat) : Bool :=
  if kw.length ≤ pos + 1 then
    let start := pos + 1 - kw.length
    ((src.drop start).take kw.length == kw) &&
      (start == 0 || !alnum (src.getD (start - 1) ' '))
  else false

/-- `_is_regex_context` with the alphanumeric predicate of its keyword
test as a parameter: at Python's Unicode `str.isalnum` this is the
program's oracle, and at `pyIsAlnum` it is `is_regex_context`. -/
def is_regex_context_gen (alnum : Char → Bool) (src : List Char) (i : Nat) : Bool :=
  match prevNonWs src i with
  | none => true
  | some pos =>
    regexPreceding (src.getD pos ' ') ||
    keywordEndsAt_gen alnum src kwReturn pos ||
    keywordEndsAt_gen alnum src kwWhere pos

/-- The keyword test of the regex-context oracle as the specification words
it, for an arbitrary alphanumeric predicate: the characters of the prefix
of `src` of length `pos + 1` ending at `pos` spell `kw`, preceded by
nothing or by a non-alphanumeric character. -/
def spellsKeywordAt (alnum : Char → Bool) (src : List Char) (kw : List Char)
    (pos : Nat) : Bool :=
  decide (kw.length ≤ pos + 1) &&
  ((src.take (pos + 1)).drop (pos + 1 - kw.length) == kw) &&
  (pos + 1 - kw.length == 0 || !alnum (src.getD (pos - kw.length) ' '))

/-- The regex-context oracle as the specification describes it, for an
arbitrary alphanumeric predicate: after skipping whitespace backward from
the cursor, true exactly when the start of input is reached, or the
previous significant character belongs to the listed set, or the
characters ending there spell `return` or `where` preceded by nothing or a
non-alphanumeric character. -/
def is_regex_context_spec (alnum : Char → Bool) (src : List Char) (i : Nat) : Bool :=
  match prevNonWs src i with
  | none => true
  | some pos =>
    regexPreceding (src.getD pos ' ') ||
    spellsKeywordAt alnum src kwReturn pos ||
    spellsKeywordAt alnum src kwWhere pos

/-- The characters of the current source line strictly before index `i`:
what the backward scan of `_is_line_only_whitespace_before_comment`
examines. -/
def lineBeforeCursor (src : List Char) (i : Nat) : List Char :=
  (src.take i).reverse.takeWhile (fun c => !(c == '\n'))

/-! Basic facts about the list helpers. -/

theorem getD_lt_of_ne {l : List Char} {n : Nat} {c : Char}
    (h : l.getD n ' ' = c) (hc : c ≠ ' ') : n < l.length := by
  by_contra hge
  exact hc (h ▸ (List.getD_eq_default l ' ' (Nat.le_of_not_lt hge)).symm ▸ rfl)

theorem drop_eq_getD_cons {l : List Char} :
    ∀ {n : Nat}, n < l.length → l.drop n = l.getD n ' ' :: l.drop (n + 1) := by
  induction l with
  | nil => intro n h; simp at h
  | cons a t ih =>
    intro n h
    cases n with
    | zero => simp
    | succ k =>
      have hk : k < t.length := Nat.lt_of_succ_lt_succ h
      simpa using ih hk

theorem get?_some_iff {l : List Char} :
    ∀ {n : Nat} {a : Char}, l.get? n = some a ↔ n < l.length ∧ l.getD n ' ' = a := by
  induction l with
  | nil => intro n a; simp
  | cons b t ih =>
    intro n a
    cases n with
    | zero => simp
    | succ k =>
      simpa [Nat.succ_lt_succ_iff] using (ih (n := k) (a := a))

theorem countRun_take_le {c : Char} :
    ∀ (l : List Char) (k : Nat), k ≤ countRun c l → l.take k = List.replicate k c := by
  intro l
  induction l with
  | nil =>
    intro k h
    simp [countRun] at h
    simp [h]
  | cons a t ih =>
    intro k h
    cases k with
    | zero => simp
    | succ j =>
      by_cases ha : (a == c) = true
      · have hac : a = c := by simpa using ha
        have hj : j ≤ countRun c t := by
          have : countRun c (a :: t) = countRun c t + 1 := by simp [countRun, ha]
          omega
        simp [List.take, List.replicate, hac, ih j hj]
      · have : countRun c (a :: t) = 0 := by simp [countRun, ha]
        omega

theorem countRun_take {c : Char} (l : List Char) :
    l.take (countRun c l) = List.replicate (countRun c l) c :=
  countRun_take_le l _ (Nat.le_refl _)

theorem countRun_pos {c : Char} {l : List Char} {t : List Char}
    (h : l = c :: t) : 1 ≤ countRun c l := by
  subst h; simp [countRun]

theorem take_one_drop {l : List Char} {n : Nat} (h : n < l.length) :
    (l.drop n).take 1 = [l.getD n ' '] := by
  rw [drop_eq_getD_cons h]; simp

theorem take_two_drop {l : List Char} {n : Nat} {a : Char}
    (h2 : l.get? (n + 1) = some a) :
    (l.drop n).take 2 = [l.getD n ' ', a] := by
  obtain ⟨hlt, hget⟩ := get?_some_iff.mp h2
  have hn : n < l.length := Nat.lt_of_succ_lt hlt
  rw [drop_eq_getD_cons hn, drop_eq_getD_cons hlt, hget]
  rfl

theorem buf_cons (ch : List Char) (res : List (List Char)) :
    ((ch :: res).reverse).flatten = res.reverse.flatten ++ ch := by
  simp

theorem findNl_ge {src : List Char} {i : Nat} (h : i < src.length)
    (hc : src.getD i ' ' ≠ '\n') : i + 1 ≤ findNl src i := by
  unfold findNl
  have hdrop := drop_eq_getD_cons h
  have : distToNl (src.drop i) = distToNl (src.drop (i + 1)) + 1 := by
    rw [hdrop]
    simp only [distToNl]
    rw [if_neg (by simpa using hc)]
  omega

theorem mem_dropWhile_of_ne {p : List Char → Bool} {ch : List Char} :
    ∀ {res : List (List Char)}, ch ∈ res → p ch = false → ch ∈ res.dropWhile p := by
  intro res
  induction res with
  | nil => intro h; simp at h
  | cons a t ih =>
    intro hmem hp
    by_cases ha : p a = true
    · rw [List.dropWhile_cons_of_pos ha]
      rcases List.mem_cons.mp hmem with rfl | ht
      · rw [hp] at ha; exact absurd ha (by simp)
      · exact ih ht hp
    · rw [List.dropWhile_cons_of_neg ha]
      exact hmem

/-! Structural facts about the handlers: they do not change the source and
never move the cursor backwards. -/

theorem popInterp_source (m : SwiftCommentRemover) : (popInterp m).source = m.source := by
  unfold popInterp
  cases m.state_stack <;> rfl

theorem popInterp_i (m : SwiftCommentRemover) : (popInterp m).i = m.i := by
  unfold popInterp
  cases m.state_stack <;> rfl

theorem popInterp_result (m : SwiftCommentRemover) : (popInterp m).result = m.result := by
  unfold popInterp
  cases m.state_stack <;> rfl

theorem interpUpdate_source (m : SwiftCommentRemover) (c : Char) :
    (interpUpdate m c).source = m.source := by
  unfold interpUpdate
  split_ifs <;> simp [popInterp_source]

theorem interpUpdate_i (m : SwiftCommentRemover) (c : Char) :
    (interpUpdate m c).i = m.i := by
  unfold interpUpdate
  split_ifs <;> simp [popInterp_i]

theorem interpUpdate_result (m : SwiftCommentRemover) (c : Char) :
    (interpUpdate m c).result = m.result := by
  unfold interpUpdate
  split_ifs <;> simp [popInterp_result]

theorem hni_source (m : SwiftCommentRemover) :
    (handle_normal_or_interpolation m).source = m.source := by
  unfold handle_normal_or_interpolation
  dsimp only
  split_ifs <;> simp [enter_string_state, interpUpdate_source]

theorem hni_i_ge (m : SwiftCommentRemover) :
    m.i ≤ (handle_normal_or_interpolation m).i := by
  unfold handle_normal_or_interpolation
  dsimp only
  split_ifs <;> simp [enter_string_state, interpUpdate_i]

theorem single_source (m : SwiftCommentRemover) :
    (handle_single_comment m).source = m.source := by
  unfold handle_single_comment handle_comment_end
  dsimp only
  split_ifs <;> rfl

theorem single_i (m : SwiftCommentRemover) :
    (handle_single_comment m).i = m.i := by
  unfold handle_single_comment handle_comment_end
  dsimp only
  split_ifs <;> rfl

theorem multi_source (m : SwiftCommentRemover) :
    (handle_multi_comment m).source = m.source := by
  unfold handle_multi_comment handle_comment_end
  dsimp only
  split_ifs <;> rfl

theorem multi_i_ge (m : SwiftCommentRemover) :
    m.i ≤ (handle_multi_comment m).i := by
  unfold handle_multi_comment handle_comment_end
  dsimp only
  split_ifs <;> simp

theorem anystr_source (m : SwiftCommentRemover) (esc : ParseState) :
    (handle_any_string m esc).source = m.source := by
  unfold handle_any_string revert_to_previous_state
  dsimp only
  split_ifs <;> rfl

theorem anystr_i_ge (m : SwiftCommentRemover) (esc : ParseState) :
    m.i ≤ (handle_any_string m esc).i := by
  unfold handle_any_string revert_to_previous_state
  dsimp only
  split_ifs <;> simp

theorem regex_source (m : SwiftCommentRemover) :
    (handle_regex m).source = m.source := by
  unfold handle_regex revert_to_previous_state
  dsimp only
  split_ifs <;> rfl

theorem regex_i_ge (m : SwiftCommentRemover) : m.i ≤ (handle_regex m).i := by
  unfold handle_regex revert_to_previous_state
  dsimp only
  split_ifs <;> simp

theorem extregex_source (m : SwiftCommentRemover) :
    (handle_extended_regex m).source = m.source := by
  unfold handle_extended_regex revert_to_previous_state
  dsimp only
  split_ifs <;> rfl

theorem extregex_i_ge (m : SwiftCommentRemover) :
    m.i ≤ (handle_extended_regex m).i := by
  unfold handle_extended_regex revert_to_previous_state
  dsimp only
  split_ifs <;> try simp
  rename_i h1 h3 h4
  have hi : m.i < m.source.length :=
    getD_lt_of_ne (c := '#') h3 (by decide)
  have hne : m.source.getD m.i ' ' ≠ '\n' := by
    rw [show m.source.getD m.i ' ' = '#' from h3]; decide
  have hgt := findNl_ge hi hne
  omega

theorem process_source (m : SwiftCommentRemover) :
    (process_current_char m).source = m.source := by
  unfold process_current_char
  cases m.current_state <;>
    simp [hni_source, single_source, multi_source, anystr_source,
      handle_string_escape, handle_multiline_string_escape, regex_source,
      extregex_source]

theorem process_i_ge (m : SwiftCommentRemover) : m.i ≤ (process_current_char m).i := by
  unfold process_current_char
  cases m.current_state <;>
    simp [hni_i_ge, single_i, multi_i_ge, anystr_i_ge,
      handle_string_escape, handle_multiline_string_escape, regex_i_ge,
      extregex_i_ge]

theorem step_source (m : SwiftCommentRemover) : (step m).source = m.source := by
  unfold step
  simp [process_source]

theorem step_i_gt (m : SwiftCommentRemover) : m.i < (step m).i := by
  have := process_i_ge m
  show m.i < (process_current_char m).i + 1
  omega

/-! Facts about the fuelled main loop. -/

theorem run_done {m : SwiftCommentRemover} (h : ¬ m.i < m.source.length) :
    ∀ k, run k m = m := by
  intro k
  cases k with
  | zero => rfl
  | succ j => simp [run, h]

theorem run_add (a b : Nat) (m : SwiftCommentRemover) :
    run (a + b) m = run b (run a m) := by
  induction a generalizing m with
  | zero => simp [run]
  | succ j ih =>
    by_cases h : m.i < m.source.length
    · have h1 : j + 1 + b = (j + b) + 1 := by omega
      rw [h1]
      show (if m.i < m.source.length then run (j + b) (step m) else m) = _
      rw [if_pos h, ih (step m)]
      show _ = run b (if m.i < m.source.length then run j (step m) else m)
      rw [if_pos h]
    · have h1 : j + 1 + b = (j + b) + 1 := by omega
      rw [h1]
      show (if m.i < m.source.length then run (j + b) (step m) else m) = _
      rw [if_neg h]
      show m = run b (run (j + 1) m)
      rw [show run (j + 1) m = m from run_done h _, run_done h b]

theorem run_succ_right (k : Nat) (m : SwiftCommentRemover) :
    run (k + 1) m =
      (if (run k m).i < (run k m).source.length then step (run k m) else run k m) := by
  rw [run_add k 1]
  show (if (run k m).i < (run k m).source.length then run 0 (step (run k m)) else run k m) = _
  rfl

theorem run_source (k : Nat) (m : SwiftCommentRemover) :
    (run k m).source = m.source := by
  induction k generalizing m with
  | zero => rfl
  | succ j ih =>
    show (if m.i < m.source.length then run j (step m) else m).source = m.source
    split_ifs with h
    · rw [ih (step m), step_source]
    · rfl

theorem run_i_lower (k : Nat) (m : SwiftCommentRemover)
    (h : (run k m).i < m.source.length) : m.i + k ≤ (run k m).i := by
  induction k generalizing m with
  | zero => show m.i + 0 ≤ m.i; omega
  | succ j ih =>
    by_cases hg : m.i < m.source.length
    · have hrw : run (j + 1) m = run j (step m) := by
        show (if m.i < m.source.length then run j (step m) else m) = _
        rw [if_pos hg]
      rw [hrw] at h ⊢
      have hsrc : (step m).source = m.source := step_source m
      have := ih (step m) (by rw [hsrc]; exact h)
      have hstep := step_i_gt m
      omega
    · rw [run_done hg (j + 1)] at h
      exact absurd h hg

theorem run_complete (k : Nat) (m : SwiftCommentRemover)
    (h : m.source.length ≤ m.i + k) : ¬ (run k m).i < (run k m).source.length := by
  induction k generalizing m with
  | zero =>
    show ¬ m.i < m.source.length
    omega
  | succ j ih =>
    by_cases hg : m.i < m.source.length
    · have hrw : run (j + 1) m = run j (step m) := by
        show (if m.i < m.source.length then run j (step m) else m) = _
        rw [if_pos hg]
      rw [hrw]
      apply ih (step m)
      have hsrc : (step m).source = m.source := step_source m
      have hstep := step_i_gt m
      rw [hsrc]
      omega
    · rw [run_done hg (j + 1)]
      exact hg

theorem finalState_complete (s : List Char) :
    ¬ (finalState s).i < s.length := by
  have h := run_complete s.length (initial s) (by simp [initial])
  have hsrc : (run s.length (initial s)).source = s := by
    rw [run_source]; rfl
  unfold finalState
  rw [hsrc] at h
  exact h

/-! The reachable-state invariant `Inv` is preserved by every step. -/

theorem extOpenChunkNe (hc : Nat) :
    ((List.replicate hc '#' ++ ['/']) == [' ']) = false := by
  cases hc with
  | zero => decide
  | succ j =>
    rw [beq_eq_false_iff_ne]
    intro heq
    have := congrArg List.length heq
    simp at this

theorem exists_chunk_cons {res : List (List Char)} (ch0 : List Char)
    (h : ∃ ch ∈ res, (ch == [' ']) = false) :
    ∃ ch ∈ ch0 :: res, (ch == [' ']) = false := by
  obtain ⟨c, hm, hp⟩ := h
  exact ⟨c, List.mem_cons_of_mem _ hm, hp⟩

theorem all_space_false {res : List (List Char)}
    (h : ∃ ch ∈ res, (ch == [' ']) = false) :
    res.all (fun ch => ch == [' ']) = false := by
  obtain ⟨c, hm, hp⟩ := h
  rw [← Bool.not_eq_true]
  intro hall
  have := List.all_eq_true.mp hall c hm
  rw [hp] at this
  cases this

theorem count_char_pos {m : SwiftCommentRemover} {c : Char} {off : Nat}
    (h : peekc m off = some c) : 1 ≤ count_char m c off := by
  obtain ⟨hlt, hg⟩ := get?_some_iff.mp h
  unfold count_char
  rw [drop_eq_getD_cons hlt, hg]
  simp [countRun]

theorem count_char_current_pos {m : SwiftCommentRemover} {c : Char}
    (hcur : currentChar m = c) (hne : c ≠ ' ') : 1 ≤ count_char m c 0 := by
  have hlt : m.i < m.source.length := getD_lt_of_ne hcur hne
  have hpk : peekc m 0 = some c := by
    unfold peekc
    rw [Nat.add_zero]
    exact get?_some_iff.mpr ⟨hlt, hcur⟩
  exact count_char_pos hpk

theorem popInterp_spec {m : SwiftCommentRemover} {ctx : StateContext}
    {rest : List StateContext} (h : m.state_stack = ctx :: rest) :
    popInterp m =
      { m with current_state := ctx.state,
               current_hash_count := ctx.hash_count,
               current_quote_count := ctx.quote_count,
               state_stack := rest } := by
  unfold popInterp
  rw [h]

theorem inv_interpUpdate (m : SwiftCommentRemover) (c : Char)
    (hst : m.current_state = ParseState.IN_INTERPOLATION) (h : Inv m) :
    Inv (interpUpdate m c) := by
  obtain ⟨h1, h2, h3, h4, h5, h6⟩ := h
  have hstk : m.state_stack ≠ [] := h2 hst
  unfold interpUpdate
  split_ifs with hc1 hc2 hc3 hc4 hc5 hc6 hc7
  · exact ⟨h1, fun _ => hstk, fun _ => hstk, h4, h5, h6⟩
  · exact ⟨h1, fun _ => hstk, fun _ => hstk, h4, h5, h6⟩
  · exact ⟨h1, fun _ => hstk, fun _ => hstk, h4, h5, h6⟩
  · obtain ⟨ctx, rest, hs⟩ := List.exists_cons_of_ne_nil hstk
    obtain ⟨hcs, hcq⟩ := h5 ctx (by rw [hs]; exact List.mem_cons_self _ _)
    · rw [popInterp_spec
        (m := { m with interpolation_depth := m.interpolation_depth - 1 }) hs]
      refine ⟨h1, ?_, ?_, ?_, ?_, ?_⟩
      · intro hx
        simp only at hx
        rcases hcs with hcs | hcs <;> rw [hcs] at hx <;> exact nomatch hx
      · intro hd
        simp only at hd
        exact absurd hd (by omega)
      · intro hx
        simp only at hx
        rcases hcs with hcs | hcs <;> rw [hcs] at hx <;> exact nomatch hx
      · intro ctx2 hm2
        exact h5 ctx2 (by rw [hs]; exact List.mem_cons_of_mem _ hm2)
      · intro _
        exact hcq
  · exact ⟨h1, fun _ => hstk, fun _ => hstk, h4, h5, h6⟩
  · exact ⟨h1, fun _ => hstk, fun _ => hstk, h4, h5, h6⟩
  · exact ⟨h1, fun _ => hstk, fun _ => hstk, h4, h5, h6⟩
  · exact ⟨h1, h2, h3, h4, h5, h6⟩

theorem inv_enter_mult (m : SwiftCommentRemover) (hc qc : Nat) (hq : 1 ≤ qc)
    (h : Inv m) :
    Inv (enter_string_state m ParseState.MULTILINE_STRING hc qc) := by
  obtain ⟨h1, h2, h3, h4, h5, h6⟩ := h
  unfold enter_string_state
  dsimp only
  refine ⟨h1, by simp, h3, by simp, h5, ?_⟩
  intro _
  show 1 ≤ (if ParseState.MULTILINE_STRING = ParseState.MULTILINE_STRING then qc else 1)
  rw [if_pos rfl]
  exact hq

theorem inv_enter_str (m : SwiftCommentRemover) (hc qc : Nat) (h : Inv m) :
    Inv (enter_string_state m ParseState.STRING hc qc) := by
  obtain ⟨h1, h2, h3, h4, h5, h6⟩ := h
  unfold enter_string_state
  dsimp only
  refine ⟨h1, by simp, h3, by simp, h5, ?_⟩
  intro _
  show 1 ≤ (if ParseState.STRING = ParseState.MULTILINE_STRING then qc else 1)
  rw [if_neg (by decide)]

theorem inv_hni (m : SwiftCommentRemover)
    (hst : m.current_state = ParseState.NORMAL ∨
           m.current_state = ParseState.IN_INTERPOLATION)
    (h : Inv m) : Inv (handle_normal_or_interpolation m) := by
  obtain ⟨h1, h2, h3, h4, h5, h6⟩ := h
  unfold handle_normal_or_interpolation
  dsimp only
  split_ifs
  · exact ⟨h1, by simp, h3, by simp, h5, by simp⟩
  · exact ⟨h1, by simp, h3, by simp, h5, by simp⟩
  · refine inv_enter_mult m _ _ (by omega) ⟨h1, h2, h3, h4, h5, h6⟩
  · exact inv_enter_str m _ _ ⟨h1, h2, h3, h4, h5, h6⟩
  · refine ⟨h1, by simp, h3, ?_, h5, by simp⟩
    intro _
    exact ⟨List.replicate (count_char m '#' 0) '#' ++ ['/'],
      List.mem_cons_self _ _, extOpenChunkNe _⟩
  · refine inv_enter_mult m _ _ (by omega) ⟨h1, h2, h3, h4, h5, h6⟩
  · exact inv_enter_str m _ _ ⟨h1, h2, h3, h4, h5, h6⟩
  · exact ⟨h1, by simp, h3, by simp, h5, by simp⟩
  · rename_i hstI
    refine inv_interpUpdate _ _ hstI ?_
    refine ⟨h1, fun hx => h2 hx, h3, ?_, h5, h6⟩
    intro hx
    simp only at hx
    rw [hstI] at hx
    exact nomatch hx
  · refine ⟨h1, fun hx => h2 hx, h3, ?_, h5, h6⟩
    intro hx
    simp only at hx
    rcases hst with hn | hn <;> rw [hn] at hx <;> exact nomatch hx

theorem inv_single (m : SwiftCommentRemover) (h : Inv m) :
    Inv (handle_single_comment m) := by
  obtain ⟨h1, h2, h3, h4, h5, h6⟩ := h
  unfold handle_single_comment handle_comment_end
  dsimp only
  split_ifs with hc1 hd hc2 hd2
  · exact ⟨h1, fun _ => h3 (by omega), h3, by simp, h5, by simp⟩
  · exact ⟨h1, by simp, h3, by simp, h5, by simp⟩
  · exact ⟨h1, fun _ => h3 (by omega), h3, by simp, h5, by simp⟩
  · exact ⟨h1, by simp, h3, by simp, h5, by simp⟩
  · exact ⟨h1, h2, h3, h4, h5, h6⟩

theorem inv_multi (m : SwiftCommentRemover)
    (hst : m.current_state = ParseState.MULTI_LINE_COMMENT) (h : Inv m) :
    Inv (handle_multi_comment m) := by
  obtain ⟨h1, h2, h3, h4, h5, h6⟩ := h
  unfold handle_multi_comment handle_comment_end
  dsimp only
  split_ifs with hc1 hc2 hc3 hc4 hd1 hc5
  · exact ⟨h1, fun hx => absurd (hst.symm.trans hx) (by decide), h3, by simp [hst],
      h5, by simp [hst]⟩
  · exact ⟨h1, fun _ => h3 (by omega), h3, by simp, h5, by simp⟩
  · exact ⟨h1, by simp, h3, by simp, h5, by simp⟩
  · exact ⟨h1, fun _ => h3 (by omega), h3, by simp, h5, by simp⟩
  · exact ⟨h1, by simp, h3, by simp, h5, by simp⟩
  · exact ⟨h1, fun hx => absurd (hst.symm.trans hx) (by decide), h3, by simp [hst],
      h5, by simp [hst]⟩
  · exact ⟨h1, h2, h3, h4, h5, h6⟩

theorem inv_anystr (m : SwiftCommentRemover) (esc : ParseState)
    (hst : m.current_state = ParseState.STRING ∨
           m.current_state = ParseState.MULTILINE_STRING)
    (hesc : esc = ParseState.STRING_ESCAPE ∨
            esc = ParseState.MULTILINE_STRING_ESCAPE)
    (h : Inv m) : Inv (handle_any_string m esc) := by
  obtain ⟨h1, h2, h3, h4, h5, h6⟩ := h
  have hq : 1 ≤ m.current_quote_count := by
    rcases hst with hn | hn
    · exact h6 (Or.inl hn)
    · exact h6 (Or.inr (Or.inl hn))
  unfold handle_any_string revert_to_previous_state
  dsimp only
  split_ifs with hc1 hc2 hc3 hd
  · refine ⟨h1, fun _ => by simp, fun _ => by simp, ?_, ?_, by simp⟩
    · intro hx
      simp only at hx
      exact nomatch hx
    · intro ctx hm
      rcases List.mem_cons.mp hm with rfl | hm2
      · exact ⟨hst, hq⟩
      · exact h5 ctx hm2
  · refine ⟨h1, ?_, h3, ?_, h5, fun _ => hq⟩
    · intro hx
      simp only at hx
      rcases hesc with he | he <;> rw [he] at hx <;> exact nomatch hx
    · intro hx
      simp only at hx
      rcases hesc with he | he <;> rw [he] at hx <;> exact nomatch hx
  · exact ⟨h1, fun _ => h3 (by omega), h3, by simp, h5, by simp⟩
  · exact ⟨h1, by simp, h3, by simp, h5, by simp⟩
  · refine ⟨h1, ?_, h3, ?_, h5, fun _ => hq⟩
    · intro hx
      simp only at hx
      rcases hst with hn | hn <;> rw [hn] at hx <;> exact nomatch hx
    · intro hx
      simp only at hx
      rcases hst with hn | hn <;> rw [hn] at hx <;> exact nomatch hx

theorem inv_string_escape (m : SwiftCommentRemover)
    (hst : m.current_state = ParseState.STRING_ESCAPE) (h : Inv m) :
    Inv (handle_string_escape m) := by
  obtain ⟨h1, h2, h3, h4, h5, h6⟩ := h
  have hq : 1 ≤ m.current_quote_count := h6 (Or.inr (Or.inr (Or.inl hst)))
  exact ⟨h1, by simp [handle_string_escape], h3, by simp [handle_string_escape],
    h5, fun _ => hq⟩

theorem inv_multiline_string_escape (m : SwiftCommentRemover)
    (hst : m.current_state = ParseState.MULTILINE_STRING_ESCAPE) (h : Inv m) :
    Inv (handle_multiline_string_escape m) := by
  obtain ⟨h1, h2, h3, h4, h5, h6⟩ := h
  have hq : 1 ≤ m.current_quote_count := h6 (Or.inr (Or.inr (Or.inr hst)))
  exact ⟨h1, by simp [handle_multiline_string_escape], h3,
    by simp [handle_multiline_string_escape], h5, fun _ => hq⟩

theorem inv_regex (m : SwiftCommentRemover)
    (hst : m.current_state = ParseState.REGEX_LITERAL) (h : Inv m) :
    Inv (handle_regex m) := by
  obtain ⟨h1, h2, h3, h4, h5, h6⟩ := h
  unfold handle_regex revert_to_previous_state
  dsimp only
  split_ifs with hc1 hc2 hd
  · exact ⟨h1, fun hx => absurd (hst.symm.trans hx) (by decide), h3,
      by simp [hst], h5, by simp [hst]⟩
  · exact ⟨h1, fun _ => h3 (by omega), h3, by simp, h5, by simp⟩
  · exact ⟨h1, by simp, h3, by simp, h5, by simp⟩
  · exact ⟨h1, fun hx => absurd (hst.symm.trans hx) (by decide), h3,
      by simp [hst], h5, by simp [hst]⟩

theorem inv_extregex (m : SwiftCommentRemover)
    (hst : m.current_state = ParseState.EXTENDED_REGEX) (h : Inv m) :
    Inv (handle_extended_regex m) := by
  obtain ⟨h1, h2, h3, h4, h5, h6⟩ := h
  have hex : ∃ ch ∈ m.result, (ch == [' ']) = false := h4 hst
  unfold handle_extended_regex revert_to_previous_state
  dsimp only
  split_ifs with hc1 hd hc2 hc3 hc4
  · exact ⟨h1, fun _ => h3 (by omega), h3, by simp, h5, by simp⟩
  · exact ⟨h1, by simp, h3, by simp, h5, by simp⟩
  · exact absurd hc3.2 (by rw [all_space_false hex]; decide)
  · refine ⟨h1, fun hx => absurd (hst.symm.trans hx) (by decide), h3, ?_, h5,
      by simp [hst]⟩
    intro _
    obtain ⟨ch0, hm, hp⟩ := hex
    exact ⟨ch0, mem_dropWhile_of_ne hm hp, hp⟩
  · refine ⟨h1, fun hx => absurd (hst.symm.trans hx) (by decide), h3, ?_, h5,
      by simp [hst]⟩
    intro _
    exact exists_chunk_cons _ hex
  · refine ⟨h1, fun hx => absurd (hst.symm.trans hx) (by decide), h3, ?_, h5,
      by simp [hst]⟩
    intro _
    exact exists_chunk_cons _ hex

theorem inv_process (m : SwiftCommentRemover) (h : Inv m) :
    Inv (process_current_char m) := by
  unfold process_current_char
  cases hst : m.current_state
  case NORMAL => exact inv_hni m (Or.inl hst) h
  case IN_INTERPOLATION => exact inv_hni m (Or.inr hst) h
  case SINGLE_LINE_COMMENT => exact inv_single m h
  case MULTI_LINE_COMMENT => exact inv_multi m hst h
  case STRING => exact inv_anystr m _ (Or.inl hst) (Or.inl rfl) h
  case MULTILINE_STRING => exact inv_anystr m _ (Or.inr hst) (Or.inr rfl) h
  case STRING_ESCAPE => exact inv_string_escape m hst h
  case MULTILINE_STRING_ESCAPE => exact inv_multiline_string_escape m hst h
  case REGEX_LITERAL => exact inv_regex m hst h
  case EXTENDED_REGEX => exact inv_extregex m hst h

theorem inv_step (m : SwiftCommentRemover) (h : Inv m) : Inv (step m) := by
  obtain ⟨h1, h2, h3, h4, h5, h6⟩ := inv_process m h
  exact ⟨h1, h2, h3, h4, h5, h6⟩

theorem inv_initial (s : List Char) : Inv (initial s) := by
  refine ⟨rfl, by simp [initial], by simp [initial], by simp [initial],
    ?_, by simp [initial]⟩
  intro ctx hm
  simp [initial] at hm

theorem inv_run (k : Nat) (m : SwiftCommentRemover) (h : Inv m) : Inv (run k m) := by
  induction k generalizing m with
  | zero => exact h
  | succ j ih =>
    show Inv (if m.i < m.source.length then run j (step m) else m)
    split_ifs with hg
    · exact ih (step m) (inv_step m h)
    · exact h

/-! Verbatim emission: a step that recognizes no comment opener and closes
no raw string at an over-long quote run appends to the output exactly the
source characters it consumes. -/

theorem count_char_zero (m : SwiftCommentRemover) (c : Char) :
    count_char m c 0 = countRun c (m.source.drop m.i) := by
  unfold count_char
  rw [Nat.add_zero]

theorem opensComment_normal {m : SwiftCommentRemover}
    (hst : m.current_state = ParseState.NORMAL ∨
           m.current_state = ParseState.IN_INTERPOLATION)
    (ho : opensComment m = false) :
    ¬(currentChar m = '/' ∧ peekc m 1 = some '/') ∧
    ¬(currentChar m = '/' ∧ peekc m 1 = some '*') := by
  rcases hst with hn | hn <;>
  · unfold opensComment at ho
    rw [hn] at ho
    simp only [Bool.and_eq_false_imp, Bool.or_eq_false_iff, beq_eq_false_iff_ne] at ho
    exact ⟨fun hx => (ho (beq_iff_eq.mpr hx.1)).1 hx.2,
           fun hx => (ho (beq_iff_eq.mpr hx.1)).2 hx.2⟩

theorem enter_verbatim (m : SwiftCommentRemover) (st : ParseState) (hc qc cq : Nat)
    (hcq : (if st = ParseState.MULTILINE_STRING then qc else 1) = cq)
    (hhash : (m.source.drop m.i).take hc = List.replicate hc '#')
    (hquote : (m.source.drop (m.i + hc)).take cq = List.replicate cq '"')
    (hcq1 : 1 ≤ cq) :
    outStr (enter_string_state m st hc qc) =
      outStr m ++
        (m.source.drop m.i).take ((enter_string_state m st hc qc).i + 1 - m.i) := by
  unfold enter_string_state
  dsimp only
  rw [hcq]
  have harith :
      m.i + ((List.replicate hc '#' ++ List.replicate cq '"').length - 1) + 1 - m.i =
        hc + cq := by
    simp
    omega
  rw [harith, List.take_add, List.drop_drop, hhash, hquote]
  simp [outStr]

theorem interpUpdate_state (m : SwiftCommentRemover) (c : Char) :
    (interpUpdate m c).current_state = m.current_state ∨
    ∃ ctx ∈ m.state_stack, (interpUpdate m c).current_state = ctx.state := by
  unfold interpUpdate
  split_ifs <;> try (exact Or.inl rfl)
  unfold popInterp
  cases hs : m.state_stack with
  | nil => exact Or.inl rfl
  | cons ctx rest =>
    refine Or.inr ⟨ctx, ?_, rfl⟩
    exact List.mem_cons_self _ _

theorem take_one_char {m : SwiftCommentRemover} (hi : m.i < m.source.length) :
    (m.source.drop m.i).take 1 = [currentChar m] :=
  take_one_drop hi

theorem verbatim_hni (m : SwiftCommentRemover)
    (hst : m.current_state = ParseState.NORMAL ∨
           m.current_state = ParseState.IN_INTERPOLATION)
    (hstack : ∀ ctx ∈ m.state_stack,
      (ctx.state = ParseState.STRING ∨ ctx.state = ParseState.MULTILINE_STRING) ∧
        1 ≤ ctx.quote_count)
    (ho : opensComment m = false)
    (hi : m.i < m.source.length) :
    outStr (handle_normal_or_interpolation m) =
      outStr m ++
        (m.source.drop m.i).take ((handle_normal_or_interpolation m).i + 1 - m.i) ∧
    (handle_normal_or_interpolation m).current_state ≠ ParseState.SINGLE_LINE_COMMENT ∧
    (handle_normal_or_interpolation m).current_state ≠ ParseState.MULTI_LINE_COMMENT := by
  obtain ⟨hno1, hno2⟩ := opensComment_normal hst ho
  unfold handle_normal_or_interpolation
  dsimp only
  split_ifs
  · refine ⟨?_, by simp [enter_string_state], by simp [enter_string_state]⟩
    refine enter_verbatim m _ _ _ _ (if_pos rfl) ?_ ?_ (by omega)
    · rw [count_char_zero]
      exact countRun_take _
    · exact countRun_take _
  · rename_i hstr hq34
    refine ⟨?_, by simp [enter_string_state], by simp [enter_string_state]⟩
    refine enter_verbatim m _ _ _ _ (if_neg (by decide)) ?_ ?_ (by omega)
    · rw [count_char_zero]
      exact countRun_take _
    · obtain ⟨hlt, hget⟩ := get?_some_iff.mp hstr.2
      rw [take_one_drop hlt, hget]
      rfl
  · rename_i hreg
    refine ⟨?_, by simp, by simp⟩
    dsimp only
    obtain ⟨hlt, hget⟩ := get?_some_iff.mp hreg.2.1
    have harith : m.i + count_char m '#' 0 + 1 - m.i = count_char m '#' 0 + 1 := by
      omega
    rw [harith, List.take_add, List.drop_drop]
    have hhash : (m.source.drop m.i).take (count_char m '#' 0) =
        List.replicate (count_char m '#' 0) '#' := by
      rw [count_char_zero]
      exact countRun_take _
    rw [hhash, take_one_drop hlt, hget]
    simp [outStr]
  · refine ⟨?_, by simp [enter_string_state], by simp [enter_string_state]⟩
    refine enter_verbatim m _ _ _ _ (if_pos rfl) ?_ ?_ (by omega)
    · simp
    · rw [Nat.add_zero, count_char_zero]
      exact countRun_take _
  · rename_i hdq hq45
    refine ⟨?_, by simp [enter_string_state], by simp [enter_string_state]⟩
    refine enter_verbatim m _ _ _ _ (if_neg (by decide)) ?_ ?_ (by omega)
    · simp
    · rw [Nat.add_zero, take_one_drop hi]
      rw [show m.source.getD m.i ' ' = '\"' from hdq]
      rfl
  · refine ⟨?_, by simp, by simp⟩
    dsimp only
    have harith : m.i + 1 - m.i = 1 := by omega
    rw [harith, take_one_char hi]
    simp [outStr]
  · rename_i hstI
    have hres := interpUpdate_result { m with result := [currentChar m] :: m.result }
      (currentChar m)
    have hii := interpUpdate_i { m with result := [currentChar m] :: m.result }
      (currentChar m)
    refine ⟨?_, ?_, ?_⟩
    · have houtStr : outStr (interpUpdate
          { m with result := [currentChar m] :: m.result } (currentChar m)) =
          ([currentChar m] :: m.result).reverse.flatten := by
        unfold outStr
        rw [hres]
      rw [houtStr, hii]
      dsimp only
      have harith : m.i + 1 - m.i = 1 := by omega
      rw [harith, take_one_char hi]
      simp [outStr]
    · rcases interpUpdate_state { m with result := [currentChar m] :: m.result }
        (currentChar m) with hstate | ⟨ctx, hmem, hstate⟩
      · rw [hstate]
        dsimp only
        rw [hstI]
        decide
      · rw [hstate]
        rcases (hstack ctx hmem).1 with hcs | hcs <;> rw [hcs] <;> decide
    · rcases interpUpdate_state { m with result := [currentChar m] :: m.result }
        (currentChar m) with hstate | ⟨ctx, hmem, hstate⟩
      · rw [hstate]
        dsimp only
        rw [hstI]
        decide
      · rw [hstate]
        rcases (hstack ctx hmem).1 with hcs | hcs <;> rw [hcs] <;> decide
  · refine ⟨?_, ?_, ?_⟩
    · dsimp only
      have harith : m.i + 1 - m.i = 1 := by omega
      rw [harith, take_one_char hi]
      simp [outStr]
    · show m.current_state ≠ _
      rcases hst with hn | hn <;> rw [hn] <;> decide
    · show m.current_state ≠ _
      rcases hst with hn | hn <;> rw [hn] <;> decide

theorem verbatim_anystr (m : SwiftCommentRemover) (esc : ParseState)
    (hst : m.current_state = ParseState.STRING ∨
           m.current_state = ParseState.MULTILINE_STRING)
    (hesc : esc = ParseState.STRING_ESCAPE ∨
            esc = ParseState.MULTILINE_STRING_ESCAPE)
    (hq : 1 ≤ m.current_quote_count)
    (hraw : overlongRawClose m = false)
    (hi : m.i < m.source.length) :
    outStr (handle_any_string m esc) =
      outStr m ++ (m.source.drop m.i).take ((handle_any_string m esc).i + 1 - m.i) ∧
    (handle_any_string m esc).current_state ≠ ParseState.SINGLE_LINE_COMMENT ∧
    (handle_any_string m esc).current_state ≠ ParseState.MULTI_LINE_COMMENT := by
  unfold handle_any_string
  dsimp only
  split_ifs with hc1 hc2 hc3
  · refine ⟨?_, by simp, by simp⟩
    dsimp only
    have harith : m.i + 1 + 1 - m.i = 2 := by omega
    rw [harith, take_two_drop hc2]
    rw [show m.source.getD m.i ' ' = '\\' from hc1]
    simp [outStr]
  · refine ⟨?_, ?_, ?_⟩
    · dsimp only
      have harith : m.i + 1 - m.i = 1 := by omega
      rw [harith, take_one_char hi]
      simp [outStr]
    · show esc ≠ _
      rcases hesc with he | he <;> rw [he] <;> decide
    · show esc ≠ _
      rcases hesc with he | he <;> rw [he] <;> decide
  · have hchar : currentChar m = '\"' := by
      have := hc3
      unfold is_closing_quote at this
      simp only [Bool.and_eq_true, beq_iff_eq] at this
      exact this.1
    have hcount : m.current_quote_count ≤ count_char m '\"' 0 ∧
        (m.current_hash_count = 0 ∨
         m.current_hash_count ≤ count_char m '#' (count_char m '\"' 0)) := by
      have := hc3
      unfold is_closing_quote at this
      simp only [Bool.and_eq_true, beq_iff_eq, decide_eq_true_eq,
        Bool.or_eq_true, beq_iff_eq] at this
      exact ⟨this.2.1, this.2.2.imp id id⟩
    have hnotlong : m.current_hash_count = 0 ∨
        count_char m '\"' 0 ≤ m.current_quote_count := by
      rcases hst with hn | hn <;>
      · unfold overlongRawClose at hraw
        rw [hn] at hraw
        rw [hc3] at hraw
        simp only [Bool.true_and, Bool.and_eq_false_iff, Bool.not_eq_false,
          beq_iff_eq, decide_eq_false_iff_not, Nat.not_lt] at hraw
        exact hraw.imp (fun hz => by simpa using hz) id
    refine ⟨?_, ?_, ?_⟩
    · unfold revert_to_previous_state
      dsimp only
      have hlen : (List.replicate m.current_quote_count '\"' ++
          List.replicate m.current_hash_count '#').length =
          m.current_quote_count + m.current_hash_count := by simp
      have harith : m.i + ((List.replicate m.current_quote_count '\"' ++
          List.replicate m.current_hash_count '#').length - 1) + 1 - m.i =
          m.current_quote_count + m.current_hash_count := by
        rw [hlen]; omega
      rw [harith, List.take_add, List.drop_drop]
      have hquote : (m.source.drop m.i).take m.current_quote_count =
          List.replicate m.current_quote_count '\"' := by
        apply countRun_take_le
        rw [← count_char_zero]
        exact hcount.1
      have hhash : (m.source.drop (m.i + m.current_quote_count)).take
          m.current_hash_count =
          List.replicate m.current_hash_count '#' := by
        rcases hnotlong with hz | hle
        · rw [hz]
          simp
        · have heq : count_char m '\"' 0 = m.current_quote_count :=
            Nat.le_antisymm hle hcount.1
          rcases hcount.2 with hz | hcnt
          · rw [hz]
            simp
          · apply countRun_take_le
            rw [heq] at hcnt
            exact hcnt
      rw [hquote, hhash]
      simp [outStr]
    · unfold revert_to_previous_state
      dsimp only
      split_ifs <;> decide
    · unfold revert_to_previous_state
      dsimp only
      split_ifs <;> decide
  · refine ⟨?_, ?_, ?_⟩
    · dsimp only
      have harith : m.i + 1 - m.i = 1 := by omega
      rw [harith, take_one_char hi]
      simp [outStr]
    · show m.current_state ≠ _
      rcases hst with hn | hn <;> rw [hn] <;> decide
    · show m.current_state ≠ _
      rcases hst with hn | hn <;> rw [hn] <;> decide

theorem verbatim_string_escape (m : SwiftCommentRemover)
    (hi : m.i < m.source.length) :
    outStr (handle_string_escape m) =
      outStr m ++ (m.source.drop m.i).take ((handle_string_escape m).i + 1 - m.i) ∧
    (handle_string_escape m).current_state ≠ ParseState.SINGLE_LINE_COMMENT ∧
    (handle_string_escape m).current_state ≠ ParseState.MULTI_LINE_COMMENT := by
  unfold handle_string_escape
  refine ⟨?_, by simp, by simp⟩
  dsimp only
  have harith : m.i + 1 - m.i = 1 := by omega
  rw [harith, take_one_char hi]
  simp [outStr]

theorem verbatim_multiline_string_escape (m : SwiftCommentRemover)
    (hi : m.i < m.source.length) :
    outStr (handle_multiline_string_escape m) =
      outStr m ++
        (m.source.drop m.i).take ((handle_multiline_string_escape m).i + 1 - m.i) ∧
    (handle_multiline_string_escape m).current_state ≠
      ParseState.SINGLE_LINE_COMMENT ∧
    (handle_multiline_string_escape m).current_state ≠
      ParseState.MULTI_LINE_COMMENT := by
  unfold handle_multiline_string_escape
  refine ⟨?_, by simp, by simp⟩
  dsimp only
  have harith : m.i + 1 - m.i = 1 := by omega
  rw [harith, take_one_char hi]
  simp [outStr]

theorem verbatim_regex (m : SwiftCommentRemover)
    (hst : m.current_state = ParseState.REGEX_LITERAL)
    (hi : m.i < m.source.length) :
    outStr (handle_regex m) =
      outStr m ++ (m.source.drop m.i).take ((handle_regex m).i + 1 - m.i) ∧
    (handle_regex m).current_state ≠ ParseState.SINGLE_LINE_COMMENT ∧
    (handle_regex m).current_state ≠ ParseState.MULTI_LINE_COMMENT := by
  unfold handle_regex
  dsimp only
  split_ifs with hc1 hc2
  · obtain ⟨c2, hc2v⟩ := Option.isSome_iff_exists.mp hc1.2
    refine ⟨?_, by simp [hst], by simp [hst]⟩
    dsimp only
    have harith : m.i + 1 + 1 - m.i = 2 := by omega
    have hb : m.source.getD m.i ' ' = '\\' := hc1.1
    rw [harith, take_two_drop hc2v, hb, hc2v]
    simp [outStr, hc1.1, hc2v]
  · refine ⟨?_, ?_, ?_⟩
    · unfold revert_to_previous_state
      dsimp only
      have harith : m.i + 1 - m.i = 1 := by omega
      rw [harith, take_one_char hi]
      simp [outStr]
    · unfold revert_to_previous_state
      dsimp only
      split_ifs <;> decide
    · unfold revert_to_previous_state
      dsimp only
      split_ifs <;> decide
  · refine ⟨?_, ?_, ?_⟩
    · dsimp only
      have harith : m.i + 1 - m.i = 1 := by omega
      rw [harith, take_one_char hi]
      simp [outStr]
    · show m.current_state ≠ _
      rw [hst]
      decide
    · show m.current_state ≠ _
      rw [hst]
      decide

theorem verbatim_extregex (m : SwiftCommentRemover)
    (hst : m.current_state = ParseState.EXTENDED_REGEX)
    (ho : opensComment m = false)
    (hi : m.i < m.source.length) :
    outStr (handle_extended_regex m) =
      outStr m ++ (m.source.drop m.i).take ((handle_extended_regex m).i + 1 - m.i) ∧
    (handle_extended_regex m).current_state ≠ ParseState.SINGLE_LINE_COMMENT ∧
    (handle_extended_regex m).current_state ≠ ParseState.MULTI_LINE_COMMENT := by
  have hnhash : ¬ currentChar m = '#' := by
    unfold opensComment at ho
    rw [hst] at ho
    simpa using ho
  unfold handle_extended_regex
  dsimp only
  split_ifs with hc1 hc2
  · refine ⟨?_, ?_, ?_⟩
    · unfold revert_to_previous_state
      dsimp only
      have harith : m.i + m.current_hash_count + 1 - m.i =
          1 + m.current_hash_count := by omega
      rw [harith, List.take_add, List.drop_drop]
      have hslash : (m.source.drop m.i).take 1 = ['/'] := by
        rw [take_one_drop hi]
        rw [show m.source.getD m.i ' ' = '/' from hc1.1]
      have hhash : (m.source.drop (m.i + 1)).take m.current_hash_count =
          List.replicate m.current_hash_count '#' := by
        apply countRun_take_le
        exact hc1.2
      rw [hslash, hhash]
      simp [outStr]
    · unfold revert_to_previous_state
      dsimp only
      split_ifs <;> decide
    · unfold revert_to_previous_state
      dsimp only
      split_ifs <;> decide
  · obtain ⟨c2, hc2v⟩ := Option.isSome_iff_exists.mp hc2.2
    refine ⟨?_, by simp [hst], by simp [hst]⟩
    dsimp only
    have harith : m.i + 1 + 1 - m.i = 2 := by omega
    have hb : m.source.getD m.i ' ' = '\\' := hc2.1
    rw [harith, take_two_drop hc2v, hb, hc2v]
    simp [outStr, hc2.1, hc2v]
  · refine ⟨?_, by simp [hst], by simp [hst]⟩
    dsimp only
    have harith : m.i + 1 - m.i = 1 := by omega
    rw [harith, take_one_char hi]
    simp [outStr]

theorem verbatim_step (m : SwiftCommentRemover) (hinv : Inv m)
    (hs1 : m.current_state ≠ ParseState.SINGLE_LINE_COMMENT)
    (hs2 : m.current_state ≠ ParseState.MULTI_LINE_COMMENT)
    (ho : opensComment m = false)
    (hraw : overlongRawClose m = false)
    (hi : m.i < m.source.length) :
    outStr (step m) = outStr m ++ (m.source.drop m.i).take ((step m).i - m.i) ∧
    (step m).current_state ≠ ParseState.SINGLE_LINE_COMMENT ∧
    (step m).current_state ≠ ParseState.MULTI_LINE_COMMENT := by
  obtain ⟨h1, h2, h3, h4, h5, h6⟩ := hinv
  have hout : outStr (step m) = outStr (process_current_char m) := rfl
  have histep : (step m).i = (process_current_char m).i + 1 := rfl
  have hstate : (step m).current_state = (process_current_char m).current_state := rfl
  rw [hout, histep, hstate]
  unfold process_current_char
  cases hst : m.current_state
  case NORMAL => exact verbatim_hni m (Or.inl hst) h5 ho hi
  case IN_INTERPOLATION => exact verbatim_hni m (Or.inr hst) h5 ho hi
  case SINGLE_LINE_COMMENT => exact absurd hst hs1
  case MULTI_LINE_COMMENT => exact absurd hst hs2
  case STRING =>
    exact verbatim_anystr m _ (Or.inl hst) (Or.inl rfl) (h6 (Or.inl hst)) hraw hi
  case MULTILINE_STRING =>
    exact verbatim_anystr m _ (Or.inr hst) (Or.inr rfl)
      (h6 (Or.inr (Or.inl hst))) hraw hi
  case STRING_ESCAPE => exact verbatim_string_escape m hi
  case MULTILINE_STRING_ESCAPE => exact verbatim_multiline_string_escape m hi
  case REGEX_LITERAL => exact verbatim_regex m hst hi
  case EXTENDED_REGEX => exact verbatim_extregex m hst ho hi

theorem clean_prefix (s : List Char) (hO : NoCommentOpener s)
    (hR : NoOverlongRawClose s) (k : Nat) :
    outStr (run k (initial s)) = s.take (run k (initial s)).i ∧
    (run k (initial s)).current_state ≠ ParseState.SINGLE_LINE_COMMENT ∧
    (run k (initial s)).current_state ≠ ParseState.MULTI_LINE_COMMENT := by
  induction k with
  | zero =>
    refine ⟨?_, by simp [run, initial], by simp [run, initial]⟩
    simp [run, initial, outStr]
  | succ j ih =>
    obtain ⟨hout, hns, hnm⟩ := ih
    rw [run_succ_right]
    by_cases hg : (run j (initial s)).i < (run j (initial s)).source.length
    · rw [if_pos hg]
      have hsrc : (run j (initial s)).source = s := by
        rw [run_source]
        rfl
      have hgi : (run j (initial s)).i < s.length := by
        have hcopy := hg
        rw [hsrc] at hcopy
        exact hcopy
      have hlow := run_i_lower j (initial s) hgi
      have h0 : (initial s).i = 0 := rfl
      have hj_lt : j < s.length := by
        rw [h0] at hlow
        omega
      have hinv := inv_run j (initial s) (inv_initial s)
      obtain ⟨hstep, hns2, hnm2⟩ :=
        verbatim_step (run j (initial s)) hinv hns hnm (hO j hj_lt) (hR j hj_lt) hg
      refine ⟨?_, hns2, hnm2⟩
      rw [hstep, hout, hsrc]
      have hii := step_i_gt (run j (initial s))
      rw [← List.take_add]
      have harith : (run j (initial s)).i +
          ((step (run j (initial s))).i - (run j (initial s)).i) =
          (step (run j (initial s))).i := by omega
      rw [harith]
    · rw [if_neg hg]
      exact ⟨hout, hns, hnm⟩

theorem clean_fix (s : List Char) (hO : NoCommentOpener s)
    (hR : NoOverlongRawClose s) : remove_comments s = s := by
  obtain ⟨hout, _, _⟩ := clean_prefix s hO hR s.length
  have hdone := finalState_complete s
  unfold remove_comments
  unfold finalState at hdone ⊢
  rw [hout]
  exact List.take_of_length_le (by omega)

/-! Branch characterizations used by the per-claim theorems. -/

theorem process_eq_normal (m : SwiftCommentRemover)
    (hst : m.current_state = ParseState.NORMAL) :
    process_current_char m = handle_normal_or_interpolation m := by
  unfold process_current_char
  rw [hst]

theorem process_eq_interp (m : SwiftCommentRemover)
    (hst : m.current_state = ParseState.IN_INTERPOLATION) :
    process_current_char m = handle_normal_or_interpolation m := by
  unfold process_current_char
  rw [hst]

theorem process_eq_single (m : SwiftCommentRemover)
    (hst : m.current_state = ParseState.SINGLE_LINE_COMMENT) :
    process_current_char m = handle_single_comment m := by
  unfold process_current_char
  rw [hst]

theorem process_eq_multi (m : SwiftCommentRemover)
    (hst : m.current_state = ParseState.MULTI_LINE_COMMENT) :
    process_current_char m = handle_multi_comment m := by
  unfold process_current_char
  rw [hst]

theorem process_eq_ext (m : SwiftCommentRemover)
    (hst : m.current_state = ParseState.EXTENDED_REGEX) :
    process_current_char m = handle_extended_regex m := by
  unfold process_current_char
  rw [hst]

theorem process_eq_string (m : SwiftCommentRemover)
    (hst : m.current_state = ParseState.STRING) :
    process_current_char m = handle_any_string m ParseState.STRING_ESCAPE := by
  unfold process_current_char
  rw [hst]

theorem process_eq_mstring (m : SwiftCommentRemover)
    (hst : m.current_state = ParseState.MULTILINE_STRING) :
    process_current_char m =
      handle_any_string m ParseState.MULTILINE_STRING_ESCAPE := by
  unfold process_current_char
  rw [hst]

theorem hni_line_comment (m : SwiftCommentRemover)
    (hc : currentChar m = '/' ∧ peekc m 1 = some '/') :
    handle_normal_or_interpolation m =
      { m with result := remove_trailing_spaces m.result,
               line_had_content := !(lineOnlyWsBefore m.source m.i),
               current_state := ParseState.SINGLE_LINE_COMMENT,
               i := m.i + 1 } := by
  unfold handle_normal_or_interpolation
  dsimp only
  rw [if_pos hc]

theorem hni_block_comment (m : SwiftCommentRemover)
    (hc : currentChar m = '/' ∧ peekc m 1 = some '*') :
    handle_normal_or_interpolation m =
      { m with result := remove_trailing_spaces m.result,
               line_had_content := !(lineOnlyWsBefore m.source m.i),
               current_state := ParseState.MULTI_LINE_COMMENT,
               nesting_level := 1,
               i := m.i + 1 } := by
  unfold handle_normal_or_interpolation
  dsimp only
  rw [if_neg (by
    rintro ⟨hx1, hx2⟩
    rw [hc.2] at hx2
    exact absurd hx2 (by decide)), if_pos hc]

theorem take_succ_getD {l : List Char} {n : Nat} (h : n < l.length) :
    l.take (n + 1) = l.take n ++ [l.getD n ' '] := by
  induction l generalizing n with
  | nil => simp at h
  | cons a t ih =>
    cases n with
    | zero => simp
    | succ k =>
      have hk : k < t.length := Nat.lt_of_succ_lt_succ h
      simp only [List.take, List.cons_append, List.getD_cons_succ]
      rw [ih hk]

theorem lineOnlyWs_spec (src : List Char) :
    ∀ n, lineOnlyWsBefore src n =
      (lineBeforeCursor src n).all (fun c => c == ' ' || c == '\t') := by
  intro n
  induction n with
  | zero => simp [lineOnlyWsBefore, lineBeforeCursor]
  | succ k ih =>
    by_cases hk : k < src.length
    · rw [show lineOnlyWsBefore src (k + 1) =
          (if (src.getD k ' ') == '\n' then true
           else if (src.getD k ' ') == ' ' || (src.getD k ' ') == '\t' then
             lineOnlyWsBefore src k
           else false) from rfl]
      unfold lineBeforeCursor
      rw [take_succ_getD hk]
      rw [List.reverse_append]
      simp only [List.reverse_cons, List.reverse_nil, List.nil_append,
        List.singleton_append]
      by_cases hnl : (src.getD k ' ') == '\n'
      · rw [if_pos hnl]
        rw [List.takeWhile_cons_of_neg (by simpa using hnl)]
        simp
      · rw [if_neg hnl]
        rw [List.takeWhile_cons_of_pos (by simpa using hnl)]
        by_cases hws : (src.getD k ' ') == ' ' || (src.getD k ' ') == '\t'
        · rw [if_pos hws, ih]
          unfold lineBeforeCursor
          rw [List.all_cons, hws, Bool.true_and]
        · rw [if_neg hws]
          rw [List.all_cons]
          rw [show ((src.getD k ' ' == ' ' || src.getD k ' ' == '\t')) = false from
            by simpa using hws]
          rw [Bool.false_and]
    · have hge : src.length ≤ k := Nat.le_of_not_lt hk
      have hgd : src.getD k ' ' = ' ' := List.getD_eq_default src ' ' hge
      rw [show lineOnlyWsBefore src (k + 1) =
          (if (src.getD k ' ') == '\n' then true
           else if (src.getD k ' ') == ' ' || (src.getD k ' ') == '\t' then
             lineOnlyWsBefore src k
           else false) from rfl]
      rw [hgd]
      simp only [if_neg (by decide : ¬ ((' ' : Char) == '\n') = true)]
      rw [if_pos (by decide)]
      rw [ih]
      unfold lineBeforeCursor
      rw [List.take_of_length_le hge, List.take_of_length_le (by omega)]

theorem keywordEndsAt_eq_spells (alnum : Char → Bool) (src kw : List Char)
    (pos : Nat) :
    keywordEndsAt_gen alnum src kw pos = spellsKeywordAt alnum src kw pos := by
  unfold keywordEndsAt_gen spellsKeywordAt
  by_cases h : kw.length ≤ pos + 1
  · rw [if_pos h]
    dsimp only
    have e2 : pos + 1 - (pos + 1 - kw.length) = kw.length := by omega
    have e1 : pos + 1 - kw.length - 1 = pos - kw.length := by omega
    rw [List.drop_take, e2, e1]
    rw [decide_eq_true h]
    rw [Bool.true_and]
  · rw [if_neg h]
    rw [decide_eq_false h]
    simp

theorem is_regex_context_eq_spec (alnum : Char → Bool) (src : List Char)
    (i : Nat) :
    is_regex_context_gen alnum src i = is_regex_context_spec alnum src i := by
  unfold is_regex_context_gen is_regex_context_spec
  cases prevNonWs src i with
  | none => rfl
  | some pos =>
    dsimp only
    rw [keywordEndsAt_eq_spells, keywordEndsAt_eq_spells]

theorem is_regex_context_eq_gen (src : List Char) (i : Nat) :
    is_regex_context src i = is_regex_context_gen pyIsAlnum src i := by
  unfold is_regex_context is_regex_context_gen keywordEndsAt keywordEndsAt_gen
  rfl

/-! Claim theorems. -/

/-- C1: comment bytes are elided.  In the line-comment state a step appends
nothing except possibly the terminating newline; in the block-comment state
a step appends nothing; the embedded comment of an extended regex literal
appends nothing, only pops trailing single-space chunks and skips the
cursor to the newline; and recognizing a `//` or `/*` opener appends
nothing and only trims trailing whitespace chunks from the output. -/
theorem c1_comment_bytes_elided :
    (∀ m : SwiftCommentRemover,
      m.current_state = ParseState.SINGLE_LINE_COMMENT →
      (step m).result = m.result ∨ (step m).result = ['\n'] :: m.result) ∧
    (∀ m : SwiftCommentRemover,
      m.current_state = ParseState.MULTI_LINE_COMMENT →
      (step m).result = m.result) ∧
    (∀ m : SwiftCommentRemover,
      m.current_state = ParseState.EXTENDED_REGEX →
      currentChar m = '#' → (∃ ch ∈ m.result, (ch == [' ']) = false) →
      (step m).result = m.result.dropWhile (fun ch => ch == [' ']) ∧
        (step m).i = findNl m.source m.i) ∧
    (∀ m : SwiftCommentRemover,
      (m.current_state = ParseState.NORMAL ∨
       m.current_state = ParseState.IN_INTERPOLATION) →
      currentChar m = '/' →
      (peekc m 1 = some '/' ∨ peekc m 1 = some '*') →
      (step m).result = remove_trailing_spaces m.result) := by
  refine ⟨?_, ?_, ?_, ?_⟩
  · intro m hst
    show (process_current_char m).result = _ ∨ (process_current_char m).result = _
    rw [process_eq_single m hst]
    unfold handle_single_comment handle_comment_end
    dsimp only
    split_ifs <;> first | exact Or.inl rfl | exact Or.inr rfl
  · intro m hst
    show (process_current_char m).result = _
    rw [process_eq_multi m hst]
    unfold handle_multi_comment handle_comment_end
    dsimp only
    split_ifs <;> rfl
  · intro m hst hch hex
    have hislt : m.i < m.source.length := getD_lt_of_ne hch (by decide)
    have hne : m.source.getD m.i ' ' ≠ '\n' := by
      intro hcon
      exact absurd (hch.symm.trans hcon) (by decide)
    have hnl := findNl_ge hislt hne
    have hres : (process_current_char m) =
        { m with result := m.result.dropWhile (fun ch => ch == [' ']),
                 i := findNl m.source m.i - 1 } := by
      rw [process_eq_ext m hst]
      unfold handle_extended_regex
      dsimp only
      rw [if_neg (fun hx => absurd (hch.symm.trans hx.1) (by decide)),
        if_pos hch,
        if_neg (fun hx => by
          have := all_space_false hex
          rw [hx.2] at this
          exact absurd this (by decide))]
    constructor
    · show (process_current_char m).result = _
      rw [hres]
    · show (process_current_char m).i + 1 = _
      rw [hres]
      dsimp only
      omega
  · intro m hst hch hpk
    rcases hpk with hpk | hpk
    · have hh : handle_normal_or_interpolation m =
          { m with result := remove_trailing_spaces m.result,
                   line_had_content := !(lineOnlyWsBefore m.source m.i),
                   current_state := ParseState.SINGLE_LINE_COMMENT,
                   i := m.i + 1 } := hni_line_comment m ⟨hch, hpk⟩
      show (process_current_char m).result = _
      rcases hst with hn | hn
      · rw [process_eq_normal m hn, hh]
      · rw [process_eq_interp m hn, hh]
    · have hh : handle_normal_or_interpolation m =
          { m with result := remove_trailing_spaces m.result,
                   line_had_content := !(lineOnlyWsBefore m.source m.i),
                   current_state := ParseState.MULTI_LINE_COMMENT,
                   nesting_level := 1,
                   i := m.i + 1 } := hni_block_comment m ⟨hch, hpk⟩
      show (process_current_char m).result = _
      rcases hst with hn | hn
      · rw [process_eq_normal m hn, hh]
      · rw [process_eq_interp m hn, hh]

theorem c1_witness :
    (step { initial ['\n'] with
        current_state := ParseState.SINGLE_LINE_COMMENT }).result =
      ({ initial ['\n'] with
        current_state := ParseState.SINGLE_LINE_COMMENT } :
          SwiftCommentRemover).result ∨
    (step { initial ['\n'] with
        current_state := ParseState.SINGLE_LINE_COMMENT }).result =
      ['\n'] :: ({ initial ['\n'] with
        current_state := ParseState.SINGLE_LINE_COMMENT } :
          SwiftCommentRemover).result :=
  c1_comment_bytes_elided.1 _ rfl

/-- C2: the lexer is total and never raises: on every input the main loop
finishes with the cursor at or beyond the end of the input, and the error
flag — which models the `state_stack.pop()` on an empty stack and the
wrap-around of the extended-regex trim, the only places the Python code
could raise — is false at every step. -/
theorem c2_total_no_exception (s : List Char) :
    (∀ k, (run k (initial s)).error = false) ∧
    ¬ (finalState s).i < s.length := by
  constructor
  · intro k
    exact (inv_run k (initial s) (inv_initial s)).1
  · exact finalState_complete s

/-- C3 counterexample: in `x++ / y` the oracle classifies the `/` at index
4 as regex context (because `+` is in the preceding-character set), and the
lexer enters the regex-literal state there — the claim's assertion that
this `/` is treated as division is false. -/
theorem c3_counterexample :
    is_regex_context ("x++ / y".data) 4 = true ∧
    (run 5 (initial ("x++ / y".data))).current_state =
      ParseState.REGEX_LITERAL := by
  exact ⟨by decide, by decide⟩

/-- C3 (amended): for every alphanumeric predicate — in particular
Python's Unicode `str.isalnum`, at which `is_regex_context_gen` is the
program's `_is_regex_context` — the oracle returns true exactly under the
specification's characterization built on the same predicate (start of
input reached, previous significant character in the listed set, or a
`return`/`where` keyword ending there preceded by nothing or a
non-alphanumeric character); the lexer's own `is_regex_context` is the
instance at the ASCII predicate `pyIsAlnum`.  `foo / bar` and `a[k] / 2`
are division, but `x++ / y` is regex context since `+` is in the set. -/
theorem c3_oracle_spec :
    (∀ (alnum : Char → Bool) (src : List Char) (i : Nat),
      is_regex_context_gen alnum src i = is_regex_context_spec alnum src i) ∧
    (∀ (src : List Char) (i : Nat),
      is_regex_context src i = is_regex_context_gen pyIsAlnum src i) ∧
    is_regex_context ("foo / bar".data) 4 = false ∧
    is_regex_context ("a[k] / 2".data) 5 = false ∧
    is_regex_context ("x++ / y".data) 4 = true :=
  ⟨is_regex_context_eq_spec, is_regex_context_eq_gen, by decide, by decide,
    by decide⟩

/-- C4 counterexample: on `a / /*c*// x` the oracle-stability hypothesis
holds (every `/` of the first pass's output has a source `/` with the same
preceding significant character and the same classification), yet removing
the block comment juxtaposes two slashes into a new `//` opener, so the
second pass differs: the first pass yields `a // x`, the second `a`. -/
theorem c4_counterexample :
    oracleStable ("a / /*c*// x".data) = true ∧
    remove_comments_str (remove_comments_str "a / /*c*// x") ≠
      remove_comments_str "a / /*c*// x" := by
  exact ⟨by decide, by decide⟩

/-- C4 (amended): `remove_comments` is idempotent provided the second pass
is clean: running the lexer on the first pass's output recognizes no
comment opener (comment removal can create one by juxtaposition, as in
`a / /*c*// x`) and closes no raw string at an over-long quote run. -/
theorem c4_idempotent_on_clean_second_pass (s : List Char)
    (hO : NoCommentOpener (remove_comments s))
    (hR : NoOverlongRawClose (remove_comments s)) :
    remove_comments (remove_comments s) = remove_comments s :=
  clean_fix (remove_comments s) hO hR

theorem c4_witness :
    remove_comments (remove_comments ("x // y".data)) =
      remove_comments ("x // y".data) :=
  c4_idempotent_on_clean_second_pass ("x // y".data) (by decide) (by decide)

/-- C5 counterexample: the comment-free input `#"a""#` (a raw string whose
closing quote run is longer than its opening delimiter) is not returned
unchanged: the output is `#"a"##`.  The input triggers no comment opener at
any step and contains no `//` or `/*`. -/
theorem c5_counterexample :
    remove_comments_str "#\"a\"\"#" = "#\"a\"##" ∧
    remove_comments_str "#\"a\"\"#" ≠ "#\"a\"\"#" ∧
    NoCommentOpener ("#\"a\"\"#".data) ∧
    hasSub ("//".data) ("#\"a\"\"#".data) = false ∧
    hasSub ("/*".data) ("#\"a\"\"#".data) = false := by
  exact ⟨by decide, by decide, by decide, by decide, by decide⟩

/-- C5 (amended): `remove_comments` is the identity on every input on which
the lexer recognizes no comment opener and additionally closes no raw
string literal at an over-long quote run. -/
theorem c5_identity_on_clean_input (s : List Char)
    (hO : NoCommentOpener s) (hR : NoOverlongRawClose s) :
    remove_comments s = s :=
  clean_fix s hO hR

theorem c5_witness :
    remove_comments ("let x = 1".data) = "let x = 1".data :=
  c5_identity_on_clean_input ("let x = 1".data) (by decide) (by decide)

/-- C6 counterexample: on `\r// c\nZ` the line before the comment opener
holds only a carriage return — a whitespace character — yet the newline is
emitted (output `\r\nZ`), because the backward scan treats only spaces and
tabs as blank. -/
theorem c6_counterexample :
    remove_comments_str "\r// c\nZ" = "\r\nZ" ∧ pyIsSpace '\r' = true := by
  exact ⟨by decide, by decide⟩

/-- C6 (amended): when a line comment ends at a newline, the newline is
emitted if and only if the source line before the opener held a character
other than space or tab (scanning backward in the source to the previous
newline; characters such as `\r` count as content); otherwise the newline
is consumed, as in `// only\nlet z = 0` → `let z = 0`. -/
theorem c6_line_comment_newline :
    (∀ m : SwiftCommentRemover,
      (m.current_state = ParseState.NORMAL ∨
       m.current_state = ParseState.IN_INTERPOLATION) →
      currentChar m = '/' → peekc m 1 = some '/' →
      (step m).line_had_content =
        !((lineBeforeCursor m.source m.i).all (fun c => c == ' ' || c == '\t'))) ∧
    (∀ m : SwiftCommentRemover,
      m.current_state = ParseState.SINGLE_LINE_COMMENT →
      currentChar m = '\n' →
      (step m).result =
        (if m.line_had_content then ['\n'] :: m.result else m.result)) ∧
    (∀ m : SwiftCommentRemover,
      m.current_state = ParseState.SINGLE_LINE_COMMENT →
      ¬ currentChar m = '\n' →
      (step m).result = m.result ∧
        (step m).line_had_content = m.line_had_content) ∧
    remove_comments_str "// only\nlet z = 0" = "let z = 0" := by
  refine ⟨?_, ?_, ?_, by decide⟩
  · intro m hst hch hpk
    have hh := hni_line_comment m ⟨hch, hpk⟩
    have hlhc : (process_current_char m).line_had_content =
        !(lineOnlyWsBefore m.source m.i) := by
      rcases hst with hn | hn
      · rw [process_eq_normal m hn, hh]
      · rw [process_eq_interp m hn, hh]
    show (process_current_char m).line_had_content = _
    rw [hlhc, lineOnlyWs_spec]
  · intro m hst hch
    show (process_current_char m).result = _
    rw [process_eq_single m hst]
    unfold handle_single_comment handle_comment_end
    dsimp only
    rw [if_pos hch]
    split_ifs <;> rfl
  · intro m hst hch
    constructor
    · show (process_current_char m).result = _
      rw [process_eq_single m hst]
      unfold handle_single_comment
      dsimp only
      rw [if_neg hch]
    · show (process_current_char m).line_had_content = _
      rw [process_eq_single m hst]
      unfold handle_single_comment
      dsimp only
      rw [if_neg hch]

theorem c6_witness :
    (step { initial ("x // y".data) with i := 2 }).line_had_content =
      !((lineBeforeCursor ("x // y".data) 2).all
          (fun c => c == ' ' || c == '\t')) :=
  c6_line_comment_newline.1 { initial ("x // y".data) with i := 2 }
    (Or.inl rfl) (by decide) (by decide)

/-- C7 counterexample: in `"\(a /* c */)"` the space of the interpolated
expression that precedes the block comment is a non-comment byte, yet it is
trimmed from the output `"\(a)"`; the expression's non-comment bytes
`a`, space, `)` do not all survive in order. -/
theorem c7_counterexample :
    remove_comments_str "\"\\(a /* c */)\"" = "\"\\(a)\"" ∧
    isSubseq ['a', ' ', ')']
      (remove_comments ("\"\\(a /* c */)\"".data)) = false := by
  exact ⟨by decide, by decide⟩

/-- C7 (amended): inside an interpolation the `\(` opener is emitted and
enters the interpolation mode; every step of the interpolation mode that
recognizes no comment opener emits exactly the consumed bytes in order,
while a recognized opener only trims trailing space and tab chunks, and the
newline of a comment-only line is consumed; comments inside the expression
are elided, as in `"v=\(n /* k */ + 1)"` → `"v=\(n + 1)"`. -/
theorem c7_interpolation_preservation :
    (∀ (s : List Char) (k : Nat),
      (run k (initial s)).current_state = ParseState.IN_INTERPOLATION →
      opensComment (run k (initial s)) = false →
      (run k (initial s)).i < s.length →
      outStr (step (run k (initial s))) =
        outStr (run k (initial s)) ++
          (s.drop (run k (initial s)).i).take
            ((step (run k (initial s))).i - (run k (initial s)).i)) ∧
    (∀ m : SwiftCommentRemover,
      m.current_state = ParseState.IN_INTERPOLATION →
      currentChar m = '/' → (peekc m 1 = some '/' ∨ peekc m 1 = some '*') →
      (step m).result = remove_trailing_spaces m.result ∧
        ((step m).current_state = ParseState.SINGLE_LINE_COMMENT ∨
         (step m).current_state = ParseState.MULTI_LINE_COMMENT)) ∧
    (∀ m : SwiftCommentRemover,
      (m.current_state = ParseState.STRING ∨
       m.current_state = ParseState.MULTILINE_STRING) →
      currentChar m = '\\' → peekc m 1 = some '(' →
      outStr (step m) = outStr m ++ ['\\', '('] ∧
        (step m).current_state = ParseState.IN_INTERPOLATION) ∧
    (∀ m : SwiftCommentRemover,
      m.current_state = ParseState.SINGLE_LINE_COMMENT →
      currentChar m = '\n' → m.line_had_content = false →
      (step m).result = m.result) ∧
    remove_comments_str "\"v=\\(n /* k */ + 1)\"" = "\"v=\\(n + 1)\"" := by
  refine ⟨?_, ?_, ?_, ?_, by decide⟩
  · intro s k hst ho hi
    have hinv := inv_run k (initial s) (inv_initial s)
    have hsrc : (run k (initial s)).source = s := by
      rw [run_source]
      rfl
    have hraw : overlongRawClose (run k (initial s)) = false := by
      unfold overlongRawClose
      rw [hst]
    have hstep := verbatim_step (run k (initial s)) hinv
      (by rw [hst]; decide) (by rw [hst]; decide) ho hraw
      (by rw [hsrc]; exact hi)
    rw [hsrc] at hstep
    exact hstep.1
  · intro m hst hch hpk
    rcases hpk with hpk | hpk
    · have hh := hni_line_comment m ⟨hch, hpk⟩
      constructor
      · show (process_current_char m).result = _
        rw [process_eq_interp m hst, hh]
      · left
        show (process_current_char m).current_state = _
        rw [process_eq_interp m hst, hh]
    · have hh := hni_block_comment m ⟨hch, hpk⟩
      constructor
      · show (process_current_char m).result = _
        rw [process_eq_interp m hst, hh]
      · right
        show (process_current_char m).current_state = _
        rw [process_eq_interp m hst, hh]
  · intro m hst hch hpk
    have hh : handle_any_string m
        (if m.current_state = ParseState.STRING then ParseState.STRING_ESCAPE
         else ParseState.MULTILINE_STRING_ESCAPE) =
        { m with result := ['\\', '('] :: m.result,
                 i := m.i + 1,
                 state_stack :=
                   { state := m.current_state,
                     hash_count := m.current_hash_count,
                     quote_count := m.current_quote_count } :: m.state_stack,
                 current_state := ParseState.IN_INTERPOLATION,
                 interpolation_depth := 1, brace_depth := 0,
                 bracket_depth := 0 } := by
      unfold handle_any_string
      dsimp only
      rw [if_pos hch, if_pos hpk]
    rcases hst with hn | hn
    · have hpe : process_current_char m =
          handle_any_string m ParseState.STRING_ESCAPE := process_eq_string m hn
      rw [if_pos hn] at hh
      constructor
      · show outStr (process_current_char m) = _
        rw [hpe, hh]
        simp [outStr]
      · show (process_current_char m).current_state = _
        rw [hpe, hh]
    · have hpe : process_current_char m =
          handle_any_string m ParseState.MULTILINE_STRING_ESCAPE :=
        process_eq_mstring m hn
      have hne : ¬ m.current_state = ParseState.STRING := by
        rw [hn]; decide
      rw [if_neg hne] at hh
      constructor
      · show outStr (process_current_char m) = _
        rw [hpe, hh]
        simp [outStr]
      · show (process_current_char m).current_state = _
        rw [hpe, hh]
  · intro m hst hch hlhc
    show (process_current_char m).result = _
    rw [process_eq_single m hst]
    unfold handle_single_comment handle_comment_end
    dsimp only
    rw [if_pos hch, if_neg (by rw [hlhc]; decide)]

theorem c7_witness :
    (step { initial ['/', '/'] with
        current_state := ParseState.IN_INTERPOLATION,
        state_stack := [{ state := ParseState.STRING, hash_count := 0,
                          quote_count := 1 }],
        interpolation_depth := 1 }).result =
      remove_trailing_spaces
        ({ initial ['/', '/'] with
            current_state := ParseState.IN_INTERPOLATION,
            state_stack := [{ state := ParseState.STRING, hash_count := 0,
                              quote_count := 1 }],
            interpolation_depth := 1 } : SwiftCommentRemover).result ∧
    ((step { initial ['/', '/'] with
        current_state := ParseState.IN_INTERPOLATION,
        state_stack := [{ state := ParseState.STRING, hash_count := 0,
                          quote_count := 1 }],
        interpolation_depth := 1 }).current_state =
        ParseState.SINGLE_LINE_COMMENT ∨
     (step { initial ['/', '/'] with
        current_state := ParseState.IN_INTERPOLATION,
        state_stack := [{ state := ParseState.STRING, hash_count := 0,
                          quote_count := 1 }],
        interpolation_depth := 1 }).current_state =
        ParseState.MULTI_LINE_COMMENT) :=
  c7_interpolation_preservation.2.1 _ rfl (by decide) (Or.inl (by decide))

/-- C8 counterexample: `/* /* inner */ outer */ code` produces ` code`
with a leading space, not exactly `code`. -/
theorem c8_counterexample :
    remove_comments_str "/* /* inner */ outer */ code" ≠ "code" ∧
    remove_comments_str "/* /* inner */ outer */ code" = " code" := by
  exact ⟨by decide, by decide⟩

/-- C8 (amended): nested block comments are removed as a whole: the input
`/* /* inner */ outer */ code` produces ` code` (so `code` after trimming
the leading space), and `/* a /* b */ c */ x` produces ` x` without leaking
`c */` into the output. -/
theorem c8_nested_block_comments :
    remove_comments_str "/* /* inner */ outer */ code" = " code" ∧
    remove_comments_str "/* a /* b */ c */ x" = " x" ∧
    hasSub ("c */".data)
      (remove_comments ("/* a /* b */ c */ x".data)) = false := by
  exact ⟨by decide, by decide, by decide⟩

/-- C9 counterexample: on the input `"\({)` the final reachable state has
mode `IN_INTERPOLATION` with `interpolation_depth = 0` (the `)` brought the
depth to zero while a brace was open, so no frame was popped), refuting
`paren_depth ≥ 1`. -/
theorem c9_counterexample :
    (finalState ['"', '\\', '(', '{', ')']).current_state =
      ParseState.IN_INTERPOLATION ∧
    (finalState ['"', '\\', '(', '{', ')']).interpolation_depth = 0 := by
  exact ⟨by decide, by decide⟩

/-- C9 (amended): in every state reachable from the initial state on any
input, mode `IN_INTERPOLATION` implies the state stack is non-empty (the
depth counter, however, may reach zero or go negative while the mode is
still `IN_INTERPOLATION`). -/
theorem c9_interpolation_stack (s : List Char) (k : Nat)
    (h : (run k (initial s)).current_state = ParseState.IN_INTERPOLATION) :
    (run k (initial s)).state_stack ≠ [] :=
  (inv_run k (initial s) (inv_initial s)).2.1 h

theorem c9_witness :
    (run 2 (initial ['"', '\\', '('])).state_stack ≠ [] :=
  c9_interpolation_stack ['"', '\\', '('] 2 (by decide)

/-- C10: the trailing-whitespace trim at a `#` comment inside an extended
regex literal pops only single-space chunks — a tab chunk at the end of
the output stays — whereas the trim before `//` and `/*` openers pops both
space and tab chunks; concretely a tab before the `#` survives while a tab
before `//` is trimmed. -/
theorem c10_ext_regex_trim :
    (∀ m : SwiftCommentRemover,
      m.current_state = ParseState.EXTENDED_REGEX →
      currentChar m = '#' → m.result.head? = some ['\t'] →
      (step m).result = m.result) ∧
    (∀ res : List (List Char),
      remove_trailing_spaces (['\t'] :: res) = remove_trailing_spaces res) ∧
    remove_comments_str "#/a\t# c\n/#" = "#/a\t\n/#" ∧
    remove_comments_str "a\t// c" = "a" := by
  refine ⟨?_, ?_, by decide, by decide⟩
  · intro m hst hch hhead
    obtain ⟨rest, hres⟩ : ∃ rest, m.result = ['\t'] :: rest := by
      cases hr : m.result with
      | nil => rw [hr] at hhead; exact absurd hhead (by simp)
      | cons a t =>
        rw [hr] at hhead
        simp only [List.head?_cons, Option.some_inj] at hhead
        exact ⟨t, by rw [hhead]⟩
    show (process_current_char m).result = _
    rw [process_eq_ext m hst]
    unfold handle_extended_regex
    dsimp only
    rw [if_neg (fun hx => absurd (hch.symm.trans hx.1) (by decide)),
      if_pos hch,
      if_neg (fun hx => by
        rw [hres] at hx
        simp at hx)]
    dsimp only
    rw [hres]
    rw [List.dropWhile_cons_of_neg (by decide)]
  · intro res
    unfold remove_trailing_spaces
    rw [List.dropWhile_cons_of_pos (by decide)]

theorem c10_witness :
    (step { initial ['#'] with
        current_state := ParseState.EXTENDED_REGEX,
        current_hash_count := 1,
        result := [['\t'], ['#', '/']] }).result =
      ({ initial ['#'] with
          current_state := ParseState.EXTENDED_REGEX,
          current_hash_count := 1,
          result := [['\t'], ['#', '/']] } : SwiftCommentRemover).result :=
  c10_ext_regex_trim.1 _ rfl (by decide) (by decide)

end CommentRemover